import Mathlib

/-!
# FFT.c: batched forward FFT to a frequency-centred dB spectrum

A shallow embedding of `src/FFT.c`.  The file has two builds, selected by the
preprocessor: the default build on top of the FFTW library (namespace `FFTW`)
and the Raspberry Pi GPU build (namespace `RPI_GPU`).

* The `float`/`double` arithmetic of the C code is kept abstract: the code is
  written against a record `FloatOps F` of the operations it uses, so every
  statement proved for an arbitrary `FloatOps F` holds whatever the rounding is.
  `IEEE.ops` is one interpretation: the IEEE-754 special values around an
  ordered field of finite values, every finite result rounded by a function that
  is a parameter; `IEEE.exact` is the case where nothing is rounded.
* The library calls (`malloc`, `fftw_create_plan`, `fftw_one`, `mbox_open`,
  `gpu_fft_prepare`, `gpu_fft_execute`, ...) are not code of this file: what they
  return is a parameter, and the calls made are recorded in the state.
* `int` is 32 bits wide, two's complement.
* `FFT_forward` is modelled for buffers that are valid memory: `in` and `out` are
  distinct arrays of rows, the scratch blocks hold `_N` elements.

The statements about `FFT_forward` come in three strengths: for every `FloatOps`
(C1, C7, C8); for `IEEE.ops` with a rounding that keeps the values named in the
statement (C2, C3, C4, and the closed form in C4 for arithmetic that does not round);
and for `IEEE.ops` with any rounding, under explicit bounds on the error of each
operation performed (C5).
-/

namespace FFT

/-! ## Numbers -/

/-- The floating-point operations `FFT.c` uses.  `ofInt` is the conversion of an
`int` (and the value of the literals `10.0f`, `128.0f`, `-100`), `gt` is `>`. -/
structure FloatOps (F : Type) where
  ofInt : Int → F
  add : F → F → F
  mul : F → F → F
  div : F → F → F
  log10 : F → F
  gt : F → F → Bool

/-- One `fftw_complex` / `struct GPU_FFT_COMPLEX`. -/
structure Cplx (F : Type) where
  re : F
  im : F

/-- The macro `#define MAX(X,Y) ((X) > (Y) ? (X) : (Y))`. -/
def MAX {F : Type} (A : FloatOps F) (X Y : F) : F :=
  if A.gt X Y then X else Y

/-- Reduction of an integer to the range of a 32-bit two's complement `int`. -/
def wrap32 (x : Int) : Int :=
  (x + 2147483648) % 4294967296 - 2147483648

/-- The C expression `a << c` on `int`.  C defines it only for `0 ≤ c < 32` with a
representable result; elsewhere this is the two's complement wrap of `a * 2^c`
(a negative count is taken as 0). -/
def shl32 (a c : Int) : Int :=
  wrap32 (a * 2 ^ c.toNat)

/-! ## Calls into the libraries, memory -/

/-- A call that leaves `FFT.c` to acquire or release a resource, to print or to exit
(the transform calls `fftw_one` and `gpu_fft_execute` are parameters of `FFT_forward`
and are not recorded).  `malloc count` is `malloc(count*sizeof(fftw_complex))`;
pointers are addresses, `0` is `NULL`. -/
inductive Call where
  | malloc (count : Int)
  | free (p : Nat)
  | fftw_create_plan (n : Int)
  | fftw_destroy_plan (p : Nat)
  | mbox_open
  | gpu_fft_prepare (mb log2_N jobs : Int)
  | gpu_fft_release (p : Nat)
  | mbox_close (mb : Int)
  | fprintf_stderr (format : String) (args : List Int)
  | exit (status : Int)
  deriving DecidableEq, Repr

/-- How a call of a function of `FFT.c` ends: it returns, or it ends the process
through `exit(status)`. -/
inductive Outcome (σ : Type) where
  | returned (s : σ)
  | exited (status : Int) (s : σ)

/-- A row-major `float **`: `m i j` is `m[i][j]`. -/
abbrev Rows (F : Type) := Nat → Nat → F

/-- The assignment `m[i][j] = v`. -/
def Rows.set {F : Type} (m : Rows F) (i j : Nat) (v : F) : Rows F :=
  Function.update m i (Function.update (m i) j v)

/-! ## The FFTW build (`#else` branches) -/

namespace FFTW

/-- The file-scope variables of the FFTW build, the contents of the two scratch
blocks, and the library calls made so far (oldest first). -/
structure State (F : Type) where
  _LOG2_N : Int
  _N : Int
  _BATCHSIZE : Int
  fftw_in : Nat
  fftw_out : Nat
  plan : Nat
  in_mem : Nat → Cplx F
  out_mem : Nat → Cplx F
  calls : List Call

/-- The state at program start: `_LOG2_N = 0, _N = 0`, `_BATCHSIZE` zero as every
static, the three pointers `NULL`. -/
def State.start {F : Type} (z : Cplx F) : State F :=
  { _LOG2_N := 0, _N := 0, _BATCHSIZE := 0, fftw_in := 0, fftw_out := 0, plan := 0,
    in_mem := fun _ => z, out_mem := fun _ => z, calls := [] }

/-- `void FFT_initialize(int log2_N, int batchsize)`, FFTW build.  `p_in`, `p_out`
and `p_plan` are what the two `malloc` calls and `fftw_create_plan` return. -/
def FFT_initialize {F : Type} (log2_N batchsize : Int) (p_in p_out p_plan : Nat)
    (s : State F) : State F :=
  let n := shl32 1 log2_N
  { s with
    _LOG2_N := log2_N
    _N := n
    _BATCHSIZE := batchsize
    fftw_in := p_in
    fftw_out := p_out
    plan := p_plan
    calls := s.calls ++ [Call.malloc n, Call.malloc n, Call.fftw_create_plan n] }

/-- The body of the loop over the rows in `FFT_forward`, for row `i`: load the row
into `fftw_in`, run `fftw_one(plan, fftw_in, fftw_out)`, then shift, scale and
convert `fftw_out` into `out[i]`.  The counter `j` runs over `0, ..., n-1` for `n = _N`
(no pass when `_N ≤ 0`), and `n / 2` is the `int` quotient `_N/2`.  `fftw_one x k` is
element `k` of what the library writes to `fftw_out` for the `_N` elements `x` of
`fftw_in`; the local `float` pair `(re, im)` is `reim`. -/
def forwardRow {F : Type} (A : FloatOps F) (fftw_one : List (Cplx F) → Nat → Cplx F)
    (inp : Rows F) (st : State F × Rows F) (i : Nat) : State F × Rows F :=
  let n := st.1._N.toNat
  let in1 := (List.range n).foldl (fun m j =>
      let m1 := Function.update m j { m j with re := inp i (2 * j) }
      Function.update m1 j { m1 j with im := inp i (2 * j + 1) }) st.1.in_mem
  let out1 : Nat → Cplx F := fun k =>
      if k < n then fftw_one ((List.range n).map in1) k else st.1.out_mem k
  let o := (List.range n).foldl (fun (o : Rows F) j =>
      let reim : F × F :=
        if j < n / 2 then
          (A.div (out1 (n / 2 + j)).re (A.ofInt st.1._N),
           A.div (out1 (n / 2 + j)).im (A.ofInt st.1._N))
        else
          (A.div (out1 (j - n / 2)).re (A.ofInt st.1._N),
           A.div (out1 (j - n / 2)).im (A.ofInt st.1._N))
      o.set i j (MAX A (A.mul (A.ofInt 10)
        (A.log10 (A.add (A.mul reim.1 reim.1) (A.mul reim.2 reim.2)))) (A.ofInt (-100))))
      st.2
  ({ st.1 with in_mem := in1, out_mem := out1 }, o)

/-- `void FFT_forward(float **in, float **out)`, FFTW build: the rows
`0, ..., _BATCHSIZE-1` in turn.  The result is the state (the scratch blocks are
overwritten) and the memory behind `out`. -/
def FFT_forward {F : Type} (A : FloatOps F) (fftw_one : List (Cplx F) → Nat → Cplx F)
    (s : State F) (inp out : Rows F) : State F × Rows F :=
  (List.range s._BATCHSIZE.toNat).foldl (forwardRow A fftw_one inp) (s, out)

/-- `void FFT_release()`, FFTW build. -/
def FFT_release {F : Type} (s : State F) : State F :=
  let s1 := if s.fftw_in ≠ 0 then { s with calls := s.calls ++ [Call.free s.fftw_in] } else s
  let s2 := if s1.fftw_out ≠ 0 then
    { s1 with calls := s1.calls ++ [Call.free s1.fftw_out] } else s1
  if s2.plan ≠ 0 then
    { s2 with calls := s2.calls ++ [Call.fftw_destroy_plan s2.plan] } else s2

end FFTW

/-! ## The Raspberry Pi GPU build (`#if defined(RPI_GPU)` branches) -/

namespace RPI_GPU

/-- The file-scope variables of the GPU build, the fields of `*gpu_fft` the file
reads (`step` and the blocks behind `in` and `out`), and the calls made so far. -/
structure State (F : Type) where
  _LOG2_N : Int
  _N : Int
  _BATCHSIZE : Int
  _IOCTL_MB : Int
  gpu_fft : Nat
  step : Nat
  dev_in : Nat → Cplx F
  dev_out : Nat → Cplx F
  calls : List Call

/-- `void FFT_initialize(int log2_N, int batchsize)`, GPU build.  `mb` is what
`mbox_open()` returns, `r` what `gpu_fft_prepare` returns, `fft` and `step` what it
leaves in `gpu_fft` and `gpu_fft->step`.  Each `case` of the `switch` prints its
message and calls `exit(1)`. -/
def FFT_initialize {F : Type} (log2_N batchsize : Int) (mb r : Int) (fft step : Nat)
    (s : State F) : Outcome (State F) :=
  let s1 := { s with _LOG2_N := log2_N, _N := shl32 1 log2_N, _BATCHSIZE := batchsize }
  let s2 := { s1 with _IOCTL_MB := mb, calls := s1.calls ++ [Call.mbox_open] }
  let s3 := { s2 with
    gpu_fft := fft
    step := step
    calls := s2.calls ++ [Call.gpu_fft_prepare s2._IOCTL_MB s2._LOG2_N s2._BATCHSIZE] }
  if r = -1 then
    Outcome.exited 1 { s3 with calls := s3.calls ++ [Call.fprintf_stderr
      "Unable to enable V3D. Please check your firmware is up to date.\n" [], Call.exit 1] }
  else if r = -2 then
    Outcome.exited 1 { s3 with calls := s3.calls ++ [Call.fprintf_stderr
      "log2_N=%d not supported. Try between 8 and 17.\n" [s3._LOG2_N], Call.exit 1] }
  else if r = -3 then
    Outcome.exited 1 { s3 with calls := s3.calls ++ [Call.fprintf_stderr
      "Out of memory. Try a smaller batch or increase GPU memory.\n" [], Call.exit 1] }
  else
    Outcome.returned s3

/-- `void FFT_forward(float **in, float **out)`, GPU build: load every row, scaled
by `1/128.0f`, at `gpu_fft->in + i*gpu_fft->step`; run `gpu_fft_execute(gpu_fft)`
(its result, from the input block and the old output block, is the parameter); then
shift, scale and convert every row of `gpu_fft->out`. -/
def FFT_forward {F : Type} (A : FloatOps F)
    (gpu_fft_execute : (Nat → Cplx F) → (Nat → Cplx F) → Nat → Cplx F)
    (s : State F) (inp out : Rows F) : State F × Rows F :=
  let n := s._N.toNat
  let in1 := (List.range s._BATCHSIZE.toNat).foldl (fun m i =>
      (List.range n).foldl (fun m j =>
        let m1 := Function.update m (i * s.step + j)
          { m (i * s.step + j) with re := A.div (inp i (2 * j)) (A.ofInt 128) }
        Function.update m1 (i * s.step + j)
          { m1 (i * s.step + j) with im := A.div (inp i (2 * j + 1)) (A.ofInt 128) }) m)
      s.dev_in
  let out1 := gpu_fft_execute in1 s.dev_out
  let o := (List.range s._BATCHSIZE.toNat).foldl (fun (o : Rows F) i =>
      (List.range n).foldl (fun (o : Rows F) j =>
        let reim : F × F :=
          if j < n / 2 then
            (A.div (out1 (i * s.step + (n / 2 + j))).re (A.ofInt s._N),
             A.div (out1 (i * s.step + (n / 2 + j))).im (A.ofInt s._N))
          else
            (A.div (out1 (i * s.step + (j - n / 2))).re (A.ofInt s._N),
             A.div (out1 (i * s.step + (j - n / 2))).im (A.ofInt s._N))
        o.set i j (MAX A (A.mul (A.ofInt 10)
          (A.log10 (A.add (A.mul reim.1 reim.1) (A.mul reim.2 reim.2)))) (A.ofInt (-100))))
        o)
      out
  ({ s with dev_in := in1, dev_out := out1 }, o)

/-- `void FFT_release()`, GPU build. -/
def FFT_release {F : Type} (s : State F) : State F :=
  if s.gpu_fft = 0 then s
  else { s with calls := s.calls ++
    [Call.gpu_fft_release s.gpu_fft, Call.mbox_close s._IOCTL_MB] }

end RPI_GPU

/-! ## An interpretation of the arithmetic: IEEE-754 special values -/

namespace IEEE

/-- A floating-point value: not-a-number, the two infinities, or a finite value.
The two zeros are one value: nothing in `FFT.c` tells them apart (no division by a
zero is reached, and `log10` of either is `-inf`). -/
inductive Val (K : Type) where
  | nan
  | ninf
  | pinf
  | fin (x : K)
  deriving DecidableEq

variable {K : Type} [LinearOrderedField K]

/-- An infinity of the given sign. -/
def inf (positive : Bool) : Val K :=
  if positive then Val.pinf else Val.ninf

/-- IEEE addition; a finite sum is rounded by `rnd`. -/
def add (rnd : K → Val K) : Val K → Val K → Val K
  | Val.nan, _ => Val.nan
  | _, Val.nan => Val.nan
  | Val.pinf, Val.ninf => Val.nan
  | Val.ninf, Val.pinf => Val.nan
  | Val.pinf, _ => Val.pinf
  | _, Val.pinf => Val.pinf
  | Val.ninf, _ => Val.ninf
  | _, Val.ninf => Val.ninf
  | Val.fin a, Val.fin b => rnd (a + b)

/-- IEEE multiplication; `0 * inf` is not a number. -/
def mul (rnd : K → Val K) : Val K → Val K → Val K
  | Val.nan, _ => Val.nan
  | _, Val.nan => Val.nan
  | Val.pinf, Val.pinf => Val.pinf
  | Val.pinf, Val.ninf => Val.ninf
  | Val.ninf, Val.pinf => Val.ninf
  | Val.ninf, Val.ninf => Val.pinf
  | Val.pinf, Val.fin b => if b = 0 then Val.nan else inf (decide (0 < b))
  | Val.ninf, Val.fin b => if b = 0 then Val.nan else inf (decide (b < 0))
  | Val.fin a, Val.pinf => if a = 0 then Val.nan else inf (decide (0 < a))
  | Val.fin a, Val.ninf => if a = 0 then Val.nan else inf (decide (a < 0))
  | Val.fin a, Val.fin b => rnd (a * b)

/-- IEEE division; `inf/inf` and `0/0` are not numbers, a zero divisor counts as `+0`. -/
def div (rnd : K → Val K) : Val K → Val K → Val K
  | Val.nan, _ => Val.nan
  | _, Val.nan => Val.nan
  | Val.pinf, Val.fin b => inf (decide (0 ≤ b))
  | Val.ninf, Val.fin b => inf (decide (b < 0))
  | Val.fin _, Val.pinf => Val.fin 0
  | Val.fin _, Val.ninf => Val.fin 0
  | Val.fin a, Val.fin b =>
      if b = 0 then (if a = 0 then Val.nan else inf (decide (0 < a))) else rnd (a / b)
  | _, _ => Val.nan

/-- The C library `log10`: `-inf` at zero, not a number below zero, and `lg` (the
library's result) at a positive finite argument. -/
def log10 (lg : K → Val K) : Val K → Val K
  | Val.nan => Val.nan
  | Val.ninf => Val.nan
  | Val.pinf => Val.pinf
  | Val.fin a => if a < 0 then Val.nan else if a = 0 then Val.ninf else lg a

/-- The comparison `x > y`: false as soon as one side is not a number. -/
def gt : Val K → Val K → Bool
  | Val.nan, _ => false
  | _, Val.nan => false
  | _, Val.pinf => false
  | Val.pinf, _ => true
  | Val.ninf, _ => false
  | Val.fin _, Val.ninf => true
  | Val.fin a, Val.fin b => decide (b < a)

/-- The operations of `FFT.c` on `Val K`: finite results are rounded by `rnd`, the
library's `log10` on positive finite arguments is `lg`.  The `int` values the file
converts (`_N`, a power of two; `10`, `128`, `-100`) are converted exactly. -/
def ops (rnd : K → Val K) (lg : K → Val K) : FloatOps (Val K) where
  ofInt n := Val.fin (n : K)
  add := add rnd
  mul := mul rnd
  div := div rnd
  log10 := log10 lg
  gt := gt

end IEEE

/-- Exact arithmetic on the finite values: nothing is rounded, and `log10` of a positive
finite value is `lg`. -/
def IEEE.exact {K : Type} [LinearOrderedField K] (lg : K → K) : FloatOps (IEEE.Val K) :=
  IEEE.ops IEEE.Val.fin (fun x => IEEE.Val.fin (lg x))

/-! ## Roundings, and the accuracy of the operations -/

/-- A rounding that overflows and does nothing else: a result of magnitude `big` or more
becomes the infinity of its sign, every other result is kept.  (In binary32 a result
overflows from about `3.4e38`, just below `2^128`.) -/
def IEEE.rndOverflow {K : Type} [LinearOrderedField K] (big : K) (x : K) : IEEE.Val K :=
  if big ≤ |x| then IEEE.inf (decide (0 < x)) else IEEE.Val.fin x

/-- A rounding that is off by the relative amount `e` on every result. -/
def IEEE.rndRel {K : Type} [LinearOrderedField K] (e : K) (x : K) : IEEE.Val K :=
  IEEE.Val.fin (x * (1 + e))

/-- The operations that `FFT_forward` performs on the finite raw bin `(a, b)` are
accurate.  In the order of the source: `re = a / _N` and `im = b / _N` return the finite
values `r` and `i`, `re*re` and `im*im` return `s` and `t`, `re*re + im*im` returns `E`,
`log10` of it returns `L`, and `10.0f * log10(...)` returns `P`.  None of the seven
overflows (each result is finite); the five roundings before the logarithm have a relative
error of at most `u` (no underflow); `log10` is within `ε` of the logarithm to base 10 and
the product by 10 within `η` of `10 * L`. -/
def IEEE.dBAccurate (rnd lg : ℝ → IEEE.Val ℝ) (u ε η : ℝ) (N : Int) (a b : ℝ) : Prop :=
  ∃ r i s t E L P : ℝ,
    (rnd (a / N) = IEEE.Val.fin r ∧ |r - a / N| ≤ u * |a / N|) ∧
    (rnd (b / N) = IEEE.Val.fin i ∧ |i - b / N| ≤ u * |b / N|) ∧
    (rnd (r * r) = IEEE.Val.fin s ∧ |s - r * r| ≤ u * |r * r|) ∧
    (rnd (i * i) = IEEE.Val.fin t ∧ |t - i * i| ≤ u * |i * i|) ∧
    (rnd (s + t) = IEEE.Val.fin E ∧ |E - (s + t)| ≤ u * |s + t|) ∧
    (lg E = IEEE.Val.fin L ∧ |L - Real.logb 10 E| ≤ ε) ∧
    (rnd (10 * L) = IEEE.Val.fin P ∧ |P - 10 * L| ≤ η)

/-! ## The steps of the transform, as the specification words them -/

/-- The `n` complex samples of a row of `2n` interleaved reals:
sample `m` is `(row[2m], row[2m+1])`. -/
def samples {F : Type} (row : Nat → F) (n : Nat) : List (Cplx F) :=
  (List.range n).map (fun m => { re := row (2 * m), im := row (2 * m + 1) })

/-- Frequency shift: the raw bin that output index `j` is read from. -/
def shiftSrc (n j : Nat) : Nat :=
  if j < n / 2 then n / 2 + j else j - n / 2

/-- Normalise a raw bin by `N`, take `10*log10(re^2 + im^2)` and clamp at `-100`. -/
def dB {F : Type} (A : FloatOps F) (N : Int) (bin : Cplx F) : F :=
  MAX A (A.mul (A.ofInt 10) (A.log10 (A.add
    (A.mul (A.div bin.re (A.ofInt N)) (A.div bin.re (A.ofInt N)))
    (A.mul (A.div bin.im (A.ofInt N)) (A.div bin.im (A.ofInt N)))))) (A.ofInt (-100))

/-- The same row with every sample divided by `c`. -/
def Rows.scaleDiv {F : Type} (A : FloatOps F) (inp : Rows F) (c : Int) : Rows F :=
  fun i m => A.div (inp i m) (A.ofInt c)

/-- The same batch with every sample multiplied by `c`. -/
def Rows.scaleMul {F : Type} (A : FloatOps F) (c : F) (inp : Rows F) : Rows F :=
  fun i m => A.mul c (inp i m)

/-- The unit impulse at sample 0 as a row of interleaved reals: `re0 = 1`, all else `0`. -/
def impulse {K : Type} [LinearOrderedField K] : Nat → IEEE.Val K :=
  fun m => if m = 0 then IEEE.Val.fin 1 else IEEE.Val.fin 0

/-! ## A reference transform

`fftw_one` and `gpu_fft_execute` are parameters of the statements below.  These
definitions give them a concrete value where a statement is applied to concrete data;
no statement about `FFT.c` depends on them. -/

/-- Modelled from the spec: one term of the sum that defines the DFT, added to `acc`:
`acc + x[m] * tw (m*k mod N)`, the complex product and sum written with the operations
of `A`. -/
def dftTerm {F : Type} (A : FloatOps F) (tw : Nat → Cplx F) (x : List (Cplx F)) (k : Nat)
    (acc : Cplx F) (m : Nat) : Cplx F :=
  { re := A.add acc.re (A.add
      (A.mul (x.getD m { re := A.ofInt 0, im := A.ofInt 0 }).re (tw (m * k % x.length)).re)
      (A.mul (A.ofInt (-1))
        (A.mul (x.getD m { re := A.ofInt 0, im := A.ofInt 0 }).im
          (tw (m * k % x.length)).im))),
    im := A.add acc.im (A.add
      (A.mul (x.getD m { re := A.ofInt 0, im := A.ofInt 0 }).re (tw (m * k % x.length)).im)
      (A.mul (x.getD m { re := A.ofInt 0, im := A.ofInt 0 }).im
        (tw (m * k % x.length)).re)) }

/-- Modelled from the spec: `fftw_one` is a call into the FFTW library, which the
specification describes as one forward complex-to-complex DFT of length `N`.  This is
that DFT by its defining sum: bin `k` of `x` is the sum over `m` of `x[m] * w^(m*k)`,
where `N` is the length of `x` and `tw r` is `w^r` for `w = exp(-2*pi*i/N)`. -/
def naiveDFT {F : Type} (A : FloatOps F) (tw : Nat → Cplx F) (x : List (Cplx F)) (k : Nat) :
    Cplx F :=
  (List.range x.length).foldl (dftTerm A tw x k) { re := A.ofInt 0, im := A.ofInt 0 }

/-- The powers of `w = exp(-2*pi*i/N)` from a cosine, a sine and the full turn `2*pi`:
`w^r = (cos(2*pi*r/N), -sin(2*pi*r/N))`. -/
def twiddle {K : Type} [LinearOrderedField K] (cosv sinv : K → K) (turn : K) (N r : Nat) :
    Cplx (IEEE.Val K) :=
  { re := IEEE.Val.fin (cosv (turn * r / N)), im := IEEE.Val.fin (-(sinv (turn * r / N))) }

/-- Modelled from the spec: `gpu_fft_execute` is a call into the GPU FFT library
(declared in `include/gpu_fft.h`), which the specification describes as one dispatch
over the whole batch, the rows a fixed stride apart, in the bin order of the other
backend.  This one computes, for each row of `step` elements, what `fftw_one` computes
for the first `n` elements of the row. -/
def RPI_GPU.executeRows {F : Type} (fftw_one : List (Cplx F) → Nat → Cplx F) (n step : Nat)
    (bufIn bufOut : Nat → Cplx F) : Nat → Cplx F :=
  fun a => if a % step < n then
    fftw_one ((List.range n).map (fun m => bufIn (a / step * step + m))) (a % step)
  else bufOut a

/-! ## Loops that fill an array -/

/-- A loop `for (j = 0; j < n; ++j) m[j] = g j` leaves `g j` at every `j < n`. -/
theorem foldl_update_range {α : Type} (g : Nat → α) (b : Nat → α) (n : Nat) :
    (List.range n).foldl (fun m j => Function.update m j (g j)) b
      = fun k => if k < n then g k else b k := by
  induction n with
  | zero => simp
  | succ n ih =>
    rw [List.range_succ, List.foldl_append, ih]
    funext k
    simp only [List.foldl_cons, List.foldl_nil, Function.update_apply]
    by_cases h1 : k = n
    · subst h1; simp
    · by_cases h2 : k < n
      · have : k < n + 1 := by omega
        simp [h1, h2, this]
      · have : ¬ k < n + 1 := by omega
        simp [h1, h2, this]

/-- A loop `for (j = 0; j < n; ++j) m[off + j] = g j`. -/
theorem foldl_update_offset {α : Type} (g : Nat → α) (b : Nat → α) (off n : Nat) :
    (List.range n).foldl (fun m j => Function.update m (off + j) (g j)) b
      = fun a => if off ≤ a ∧ a < off + n then g (a - off) else b a := by
  induction n with
  | zero =>
    funext a
    have : ¬ (off ≤ a ∧ a < off + 0) := by omega
    simp only [List.range_zero, List.foldl_nil]
    rw [if_neg this]
  | succ n ih =>
    rw [List.range_succ, List.foldl_append, ih]
    funext a
    simp only [List.foldl_cons, List.foldl_nil, Function.update_apply]
    by_cases h1 : a = off + n
    · subst h1; simp
    · by_cases h2 : off ≤ a ∧ a < off + n
      · have : off ≤ a ∧ a < off + (n + 1) := by omega
        simp [h1, h2, this]
      · have : ¬ (off ≤ a ∧ a < off + (n + 1)) := by omega
        simp [h1, h2, this]

/-- Assigning `.re` and then `.im` of one element is one assignment of the pair. -/
theorem update_re_im {F : Type} (m : Nat → Cplx F) (j : Nat) (a b : F) :
    Function.update (Function.update m j { m j with re := a }) j
        { (Function.update m j { m j with re := a }) j with im := b }
      = Function.update m j { re := a, im := b } := by
  funext k
  by_cases h : k = j
  · subst h; simp
  · simp [h]

/-- A loop `for (j = 0; j < n; ++j) o[i][j] = v j` changes row `i` below `n` only. -/
theorem foldl_set_range {F : Type} (v : Nat → F) (o : Rows F) (i n : Nat) :
    (List.range n).foldl (fun (o : Rows F) j => o.set i j (v j)) o
      = fun r c => if r = i ∧ c < n then v c else o r c := by
  induction n with
  | zero => simp
  | succ n ih =>
    rw [List.range_succ, List.foldl_append, ih]
    funext r c
    simp only [List.foldl_cons, List.foldl_nil, Rows.set, Function.update_apply]
    by_cases h0 : r = i
    · by_cases h1 : c = n
      · subst h1; simp [h0]
      · by_cases h2 : c < n
        · have : c < n + 1 := by omega
          simp [h0, h1, h2, this]
        · have : ¬ c < n + 1 := by omega
          simp [h0, h1, h2, this]
    · simp [h0]

/-- The two nested loops `o[i][j] = v i j` for `i < b`, `j < n`. -/
theorem foldl_set_rows {F : Type} (v : Nat → Nat → F) (o : Rows F) (b n : Nat) :
    (List.range b).foldl (fun (o : Rows F) i =>
        (List.range n).foldl (fun (o : Rows F) j => o.set i j (v i j)) o) o
      = fun r c => if r < b ∧ c < n then v r c else o r c := by
  induction b with
  | zero => simp
  | succ b ih =>
    rw [List.range_succ, List.foldl_append, ih]
    simp only [List.foldl_cons, List.foldl_nil]
    rw [foldl_set_range]
    funext r c
    by_cases h0 : r = b
    · subst h0
      by_cases h1 : c < n
      · simp [h1]
      · simp [h1]
    · by_cases h2 : r < b
      · have : r < b + 1 := by omega
        simp [h0, h2, this]
      · have : ¬ r < b + 1 := by omega
        simp [h0, h2, this]

/-! ## Samples, the shift and the 32-bit shift -/

/-- The samples of a row depend on its first `2n` reals only. -/
theorem samples_congr {F : Type} (row row2 : Nat → F) (n : Nat)
    (h : ∀ m, m < 2 * n → row m = row2 m) : samples row n = samples row2 n := by
  unfold samples
  apply List.map_congr_left
  intro k hk
  have hk2 := List.mem_range.mp hk
  rw [h (2 * k) (by omega), h (2 * k + 1) (by omega)]

theorem samples_length {F : Type} (row : Nat → F) (n : Nat) : (samples row n).length = n := by
  simp [samples]

theorem samples_getD {F : Type} (row : Nat → F) (n m : Nat) (z : Cplx F) (h : m < n) :
    (samples row n).getD m z = { re := row (2 * m), im := row (2 * m + 1) } := by
  simp [samples, List.getD, h]

/-- The shift reads inside the `n` bins. -/
theorem shiftSrc_lt {n j : Nat} (h : j < n) : shiftSrc n j < n := by
  unfold shiftSrc
  split <;> omega

/-- For `n = 1` or `n` even the shift is a bijection of the `n` indices: output index `j`
reads raw bin `k` exactly when `j = (k + n/2) mod n`. -/
theorem shiftSrc_eq_iff {n j k : Nat} (hn : n = 1 ∨ n % 2 = 0) (hj : j < n) (hk : k < n) :
    shiftSrc n j = k ↔ j = (k + n / 2) % n := by
  unfold shiftSrc
  rcases hn with h1 | h2
  · subst h1
    have hj0 : j = 0 := by omega
    have hk0 : k = 0 := by omega
    subst hj0 hk0
    simp
  · by_cases h : j < n / 2
    · rw [if_pos h]
      constructor
      · intro e
        have : k + n / 2 = j + n := by omega
        rw [this, Nat.add_mod_right, Nat.mod_eq_of_lt hj]
      · intro e
        by_cases hk2 : k + n / 2 < n
        · rw [Nat.mod_eq_of_lt hk2] at e; omega
        · have : k + n / 2 = (k + n / 2 - n) + n := by omega
          rw [this, Nat.add_mod_right, Nat.mod_eq_of_lt (by omega)] at e
          omega
    · rw [if_neg h]
      constructor
      · intro e
        have : k + n / 2 = j := by omega
        rw [this, Nat.mod_eq_of_lt hj]
      · intro e
        by_cases hk2 : k + n / 2 < n
        · rw [Nat.mod_eq_of_lt hk2] at e; omega
        · have : k + n / 2 = (k + n / 2 - n) + n := by omega
          rw [this, Nat.add_mod_right, Nat.mod_eq_of_lt (by omega)] at e
          omega

theorem pow_two_one_or_even (k : Nat) : 2 ^ k = 1 ∨ 2 ^ k % 2 = 0 := by
  cases k with
  | zero => left; rfl
  | succ k => right; rw [pow_succ]; omega

theorem wrap32_of_range {x : Int} (h0 : -2147483648 ≤ x) (h1 : x < 2147483648) :
    wrap32 x = x := by
  unfold wrap32
  rw [Int.emod_eq_of_lt (by omega) (by omega)]
  omega

/-- For `0 ≤ c ≤ 30` the shift `1 << c` does not overflow. -/
theorem shl32_one {c : Int} (h0 : 0 ≤ c) (h1 : c ≤ 30) : shl32 1 c = 2 ^ c.toNat := by
  unfold shl32
  have hc : c.toNat ≤ 30 := by omega
  have hp : (2 : Int) ^ c.toNat ≤ 2 ^ 30 := pow_le_pow_right₀ (by norm_num) hc
  have hq : (0 : Int) < 2 ^ c.toNat := by positivity
  rw [one_mul]
  exact wrap32_of_range (by omega) (by norm_num at hp ⊢; omega)

/-! ## What `FFT_forward` computes, FFTW build -/

namespace FFTW

/-- The loading loop of the FFTW build overwrites the first `n` elements of `fftw_in`. -/
theorem load_eq {F : Type} (row : Nat → F) (n : Nat) (b : Nat → Cplx F) :
    (List.range n).foldl (fun m j =>
      let m1 := Function.update m j { m j with re := row (2 * j) }
      Function.update m1 j { m1 j with im := row (2 * j + 1) }) b
      = fun k => if k < n then { re := row (2 * k), im := row (2 * k + 1) } else b k := by
  simp only [update_re_im]
  exact foldl_update_range (fun j => ({ re := row (2 * j), im := row (2 * j + 1) } : Cplx F)) b n

theorem map_load_eq {F : Type} (row : Nat → F) (n : Nat) (b : Nat → Cplx F) :
    (List.range n).map (fun k => if k < n then
        ({ re := row (2 * k), im := row (2 * k + 1) } : Cplx F) else b k)
      = samples row n := by
  unfold samples
  apply List.map_congr_left
  intro k hk
  simp [List.mem_range.mp hk]

/-- One pass of the row loop: row `i` of `out` gets the shifted, scaled dB values of
the transform of row `i` of the input, the rest of `out` is untouched. -/
theorem forwardRow_out {F : Type} (A : FloatOps F) (fftw_one : List (Cplx F) → Nat → Cplx F)
    (inp : Rows F) (st : State F × Rows F) (i : Nat) :
    (forwardRow A fftw_one inp st i).2 = fun r c =>
      if r = i ∧ c < st.1._N.toNat then
        dB A st.1._N (fftw_one (samples (inp i) st.1._N.toNat) (shiftSrc st.1._N.toNat c))
      else st.2 r c := by
  unfold forwardRow
  simp only [load_eq, map_load_eq]
  rw [foldl_set_range]
  funext r c
  by_cases h : r = i ∧ c < st.1._N.toNat
  · have hs := shiftSrc_lt h.2
    unfold shiftSrc at hs
    rw [if_pos h, if_pos h]
    unfold dB shiftSrc
    by_cases h2 : c < st.1._N.toNat / 2
    · have h3 : st.1._N.toNat / 2 + c < st.1._N.toNat := by simpa [h2] using hs
      simp [h2, h3]
    · have h3 : c - st.1._N.toNat / 2 < st.1._N.toNat := by simpa [h2] using hs
      simp [h2, h3]
  · rw [if_neg h, if_neg h]

theorem forwardRow_cfg {F : Type} (A : FloatOps F) (fftw_one : List (Cplx F) → Nat → Cplx F)
    (inp : Rows F) (st : State F × Rows F) (i : Nat) :
    (forwardRow A fftw_one inp st i).1._N = st.1._N := rfl

/-- The loop over the first `b` rows. -/
theorem rows_out {F : Type} (A : FloatOps F) (fftw_one : List (Cplx F) → Nat → Cplx F)
    (inp : Rows F) (s : State F) (out : Rows F) (b : Nat) :
    ((List.range b).foldl (forwardRow A fftw_one inp) (s, out)).1._N = s._N ∧
    ((List.range b).foldl (forwardRow A fftw_one inp) (s, out)).2 = fun r c =>
      if r < b ∧ c < s._N.toNat then
        dB A s._N (fftw_one (samples (inp r) s._N.toNat) (shiftSrc s._N.toNat c))
      else out r c := by
  induction b with
  | zero => simp
  | succ b ih =>
    rw [List.range_succ, List.foldl_append]
    simp only [List.foldl_cons, List.foldl_nil]
    refine ⟨by rw [forwardRow_cfg]; exact ih.1, ?_⟩
    rw [forwardRow_out, ih.1, ih.2]
    funext r c
    by_cases h0 : r = b
    · subst h0
      by_cases h1 : c < s._N.toNat
      · simp [h1]
      · simp [h1]
    · by_cases h2 : r < b
      · have : r < b + 1 := by omega
        simp [h0, h2, this]
      · have : ¬ r < b + 1 := by omega
        simp [h0, h2, this]

theorem rows_batch {F : Type} (A : FloatOps F) (fftw_one : List (Cplx F) → Nat → Cplx F)
    (inp : Rows F) (s : State F) (out : Rows F) (b : Nat) :
    ((List.range b).foldl (forwardRow A fftw_one inp) (s, out)).1._BATCHSIZE = s._BATCHSIZE := by
  induction b with
  | zero => simp
  | succ b ih =>
    rw [List.range_succ, List.foldl_append]
    simpa [forwardRow] using ih

/-- What `FFT_forward` leaves behind `out`: the cells `[i][j]` with `i < _BATCHSIZE` and
`j < _N` hold the dB value of raw bin `shiftSrc _N j` of row `i`; no other cell changes. -/
theorem FFT_forward_out {F : Type} (A : FloatOps F) (fftw_one : List (Cplx F) → Nat → Cplx F)
    (s : State F) (inp out : Rows F) :
    (FFT_forward A fftw_one s inp out).2 = fun r c =>
      if r < s._BATCHSIZE.toNat ∧ c < s._N.toNat then
        dB A s._N (fftw_one (samples (inp r) s._N.toNat) (shiftSrc s._N.toNat c))
      else out r c :=
  (rows_out A fftw_one inp s out s._BATCHSIZE.toNat).2

/-- `FFT_forward` leaves `_N` and `_BATCHSIZE` as they are. -/
theorem FFT_forward_cfg {F : Type} (A : FloatOps F) (fftw_one : List (Cplx F) → Nat → Cplx F)
    (s : State F) (inp out : Rows F) :
    (FFT_forward A fftw_one s inp out).1._N = s._N ∧
    (FFT_forward A fftw_one s inp out).1._BATCHSIZE = s._BATCHSIZE :=
  ⟨(rows_out A fftw_one inp s out s._BATCHSIZE.toNat).1,
   rows_batch A fftw_one inp s out s._BATCHSIZE.toNat⟩

/-- Rows with the same samples get the same outputs, whatever the states. -/
theorem row_determined_aux {F : Type} (A : FloatOps F)
    (fftw_one : List (Cplx F) → Nat → Cplx F)
    (s s2 : State F) (inp inp2 out out2 : Rows F) (i i2 j : Nat)
    (hN : s._N = s2._N) (hi : (i : Int) < s._BATCHSIZE) (hi2 : (i2 : Int) < s2._BATCHSIZE)
    (hrow : ∀ m, m < 2 * s._N.toNat → inp i m = inp2 i2 m) (hj : j < s._N.toNat) :
    (FFT_forward A fftw_one s inp out).2 i j
      = (FFT_forward A fftw_one s2 inp2 out2).2 i2 j := by
  have hb : i < s._BATCHSIZE.toNat := by omega
  have hb2 : i2 < s2._BATCHSIZE.toNat := by omega
  have hj2 : j < s2._N.toNat := by rw [← hN]; exact hj
  rw [FFT_forward_out, FFT_forward_out]
  simp only [hb, hb2, hj, hj2, and_self, if_true]
  rw [← hN, samples_congr (inp i) (inp2 i2) s._N.toNat hrow]

/-- Two calls in a row with the same input: the second call, on the state (and scratch
blocks) the first one left, writes the same values again. -/
theorem FFT_forward_twice {F : Type} (A : FloatOps F)
    (fftw_one : List (Cplx F) → Nat → Cplx F)
    (s : State F) (inp out out2 : Rows F) (i j : Nat)
    (hi : (i : Int) < s._BATCHSIZE) (hj : j < s._N.toNat) :
    (FFT_forward A fftw_one (FFT_forward A fftw_one s inp out).1 inp out2).2 i j
      = (FFT_forward A fftw_one s inp out).2 i j := by
  have hc := FFT_forward_cfg A fftw_one s inp out
  exact row_determined_aux A fftw_one _ s inp inp out2 out i i j hc.1
    (by rw [hc.2]; exact hi) hi (fun m _ => rfl) (by rw [hc.1]; exact hj)

end FFTW

/-! ## What `FFT_forward` computes, GPU build -/

namespace RPI_GPU

/-- The first loop nest of the GPU `FFT_forward`: after the rows below `b`, address
`i*step + j` (`i < b`, `j < n ≤ step`) holds sample `j` of row `i`, divided by 128. -/
theorem load_rows {F : Type} (A : FloatOps F) (inp : Rows F) (step n : Nat)
    (hstep : n ≤ step) (m0 : Nat → Cplx F) (b i j : Nat) (hi : i < b) (hj : j < n) :
    ((List.range b).foldl (fun m i =>
      (List.range n).foldl (fun m j =>
        let m1 := Function.update m (i * step + j)
          { m (i * step + j) with re := A.div (inp i (2 * j)) (A.ofInt 128) }
        Function.update m1 (i * step + j)
          { m1 (i * step + j) with im := A.div (inp i (2 * j + 1)) (A.ofInt 128) }) m)
      m0) (i * step + j)
      = { re := A.div (inp i (2 * j)) (A.ofInt 128),
          im := A.div (inp i (2 * j + 1)) (A.ofInt 128) } := by
  simp only [update_re_im]
  induction b with
  | zero => omega
  | succ b ih =>
    rw [List.range_succ, List.foldl_append]
    simp only [List.foldl_cons, List.foldl_nil]
    rw [foldl_update_offset (fun j => (Cplx.mk (A.div (inp b (2 * j)) (A.ofInt 128))
      (A.div (inp b (2 * j + 1)) (A.ofInt 128)) : Cplx F))]
    by_cases hb : i = b
    · subst hb
      have : i * step ≤ i * step + j ∧ i * step + j < i * step + n := by omega
      simp [this]
    · have hlt : i < b := by omega
      have h1 : (i + 1) * step ≤ b * step := Nat.mul_le_mul_right step (by omega)
      have h2 : (i + 1) * step = i * step + step := by ring
      have : ¬ (b * step ≤ i * step + j ∧ i * step + j < b * step + n) := by omega
      simp only [this, if_false]
      exact ih hlt

/-- What the GPU `FFT_forward` leaves behind `out`. -/
theorem gpu_forward_out {F : Type} (A : FloatOps F)
    (gpu_fft_execute : (Nat → Cplx F) → (Nat → Cplx F) → Nat → Cplx F)
    (s : State F) (inp out : Rows F) :
    (FFT_forward A gpu_fft_execute s inp out).2 = fun r c =>
      if r < s._BATCHSIZE.toNat ∧ c < s._N.toNat then
        dB A s._N ((FFT_forward A gpu_fft_execute s inp out).1.dev_out
          (r * s.step + shiftSrc s._N.toNat c))
      else out r c := by
  unfold FFT_forward
  simp only []
  rw [foldl_set_rows (fun i j => MAX A (A.mul (A.ofInt 10) (A.log10 (A.add
    (A.mul
      (if j < s._N.toNat / 2 then _ else _ : F × F).1
      (if j < s._N.toNat / 2 then _ else _ : F × F).1)
    (A.mul
      (if j < s._N.toNat / 2 then _ else _ : F × F).2
      (if j < s._N.toNat / 2 then _ else _ : F × F).2)))) (A.ofInt (-100)))]
  funext r c
  by_cases h : r < s._BATCHSIZE.toNat ∧ c < s._N.toNat
  · rw [if_pos h, if_pos h]
    unfold dB shiftSrc
    by_cases h2 : c < s._N.toNat / 2
    · simp [h2]
    · simp [h2]
  · rw [if_neg h, if_neg h]

theorem gpu_forward_dev_in {F : Type} (A : FloatOps F)
    (gpu_fft_execute : (Nat → Cplx F) → (Nat → Cplx F) → Nat → Cplx F)
    (s : State F) (inp out : Rows F) (hstep : s._N.toNat ≤ s.step) (i j : Nat)
    (hi : i < s._BATCHSIZE.toNat) (hj : j < s._N.toNat) :
    (FFT_forward A gpu_fft_execute s inp out).1.dev_in (i * s.step + j)
      = { re := A.div (inp i (2 * j)) (A.ofInt 128),
          im := A.div (inp i (2 * j + 1)) (A.ofInt 128) } :=
  load_rows A inp s.step s._N.toNat hstep s.dev_in s._BATCHSIZE.toNat i j hi hj

theorem gpu_forward_dev_out {F : Type} (A : FloatOps F)
    (gpu_fft_execute : (Nat → Cplx F) → (Nat → Cplx F) → Nat → Cplx F)
    (s : State F) (inp out : Rows F) :
    (FFT_forward A gpu_fft_execute s inp out).1.dev_out
      = gpu_fft_execute (FFT_forward A gpu_fft_execute s inp out).1.dev_in s.dev_out := rfl

end RPI_GPU

/-- `executeRows` computes row by row what `fftw_one` computes. -/
theorem RPI_GPU.executeRows_row {F : Type} (fftw_one : List (Cplx F) → Nat → Cplx F)
    (n step : Nat) (hstep : n ≤ step) (bufIn bufOut : Nat → Cplx F) (r k : Nat) (hk : k < n) :
    RPI_GPU.executeRows fftw_one n step bufIn bufOut (r * step + k)
      = fftw_one ((List.range n).map (fun m => bufIn (r * step + m))) k := by
  have hks : k < step := by omega
  have h1 : (r * step + k) % step = k := by
    rw [Nat.add_comm, Nat.add_mul_mod_self_right, Nat.mod_eq_of_lt hks]
  have h2 : (r * step + k) / step = r := by
    rw [Nat.add_comm, Nat.add_mul_div_right _ _ (by omega), Nat.div_eq_of_lt hks, Nat.zero_add]
  unfold RPI_GPU.executeRows
  rw [h1, h2, if_pos hk]

/-! ## The dB value in the IEEE interpretation -/

namespace IEEE

variable {K : Type} [LinearOrderedField K]

/-- A bin that is zero gives the floor: `0/N = 0`, `0*0 + 0*0 = 0`, `log10 0 = -inf`,
`10 * -inf = -inf`, and `-inf > -100` is false. -/
theorem dB_zero (rnd lg : K → Val K) (h0 : rnd 0 = Val.fin 0) (N : Int) (hN : N ≠ 0) :
    dB (ops rnd lg) N { re := Val.fin 0, im := Val.fin 0 } = Val.fin (-100) := by
  have hNK : (N : K) ≠ 0 := by exact_mod_cast hN
  have h10 : ¬ (10 : K) < 0 := by norm_num
  simp [dB, MAX, ops, div, mul, add, log10, gt, inf, hNK, h0, h10]

/-- Whatever the bin, the value written is neither not-a-number nor `-inf`: `MAX` keeps
its first argument only when `>` holds. -/
theorem dB_ne_nan_ninf (rnd lg : K → Val K) (N : Int) (bin : Cplx (Val K)) :
    dB (ops rnd lg) N bin ≠ Val.nan ∧ dB (ops rnd lg) N bin ≠ Val.ninf := by
  unfold dB MAX
  generalize (ops rnd lg).mul ((ops rnd lg).ofInt 10) _ = x
  cases x <;> simp [ops, gt]
  split_ifs <;> simp

/-- The dB value of a finite bin in exact arithmetic. -/
theorem dB_exact_fin (lg : K → K) (N : Int) (hN : N ≠ 0) (a b : K) :
    dB (exact lg) N { re := Val.fin a, im := Val.fin b } =
      if a / N * (a / N) + b / N * (b / N) = 0 then Val.fin (-100)
      else if -100 < 10 * lg (a / N * (a / N) + b / N * (b / N))
        then Val.fin (10 * lg (a / N * (a / N) + b / N * (b / N)))
        else Val.fin (-100) := by
  have hNK : (N : K) ≠ 0 := by exact_mod_cast hN
  have hE : ¬ a / N * (a / N) + b / N * (b / N) < 0 := by
    have := add_nonneg (mul_self_nonneg (a / N)) (mul_self_nonneg (b / N))
    exact not_lt.mpr this
  have h10 : ¬ (10 : K) < 0 := by norm_num
  by_cases hz : a / N * (a / N) + b / N * (b / N) = 0
  · simp [dB, MAX, exact, ops, div, mul, add, log10, gt, inf, hNK, hz, h10]
  · simp only [dB, MAX, exact, ops, div, mul, add, log10, gt, hNK, hz, hE, if_false]
    simp

/-- The dB value of a finite bin when each of the seven operations returns a finite value:
the product `P`, unless the energy `E` is zero or `P` is not above the floor. -/
theorem dB_of_roundings (rnd lg : K → Val K) (N : Int)
    (hN : N ≠ 0) (a b r i s t E L P : K)
    (hr : rnd (a / N) = Val.fin r) (hi : rnd (b / N) = Val.fin i)
    (hs : rnd (r * r) = Val.fin s) (ht : rnd (i * i) = Val.fin t)
    (hE : rnd (s + t) = Val.fin E) (hL : lg E = Val.fin L) (hP : rnd (10 * L) = Val.fin P) :
    dB (ops rnd lg) N { re := Val.fin a, im := Val.fin b }
      = if 0 < E ∧ -100 < P then Val.fin P else Val.fin (-100) := by
  have hNK : (N : K) ≠ 0 := by exact_mod_cast hN
  have h10 : ¬ (10 : K) < 0 := by norm_num
  have e : dB (ops rnd lg) N { re := Val.fin a, im := Val.fin b }
      = MAX (ops rnd lg) (mul rnd (Val.fin 10) (log10 lg (add rnd
          (mul rnd (div rnd (Val.fin a) (Val.fin (N : K))) (div rnd (Val.fin a) (Val.fin (N : K))))
          (mul rnd (div rnd (Val.fin b) (Val.fin (N : K)))
            (div rnd (Val.fin b) (Val.fin (N : K))))))) (Val.fin (-100)) := by
    simp [dB, ops]
  have da : div rnd (Val.fin a) (Val.fin (N : K)) = Val.fin r := by
    simp only [div, hNK, if_false]; exact hr
  have db : div rnd (Val.fin b) (Val.fin (N : K)) = Val.fin i := by
    simp only [div, hNK, if_false]; exact hi
  rw [e, da, db]
  simp only [mul, hs, ht, add, hE]
  rcases lt_trichotomy E 0 with h | h | h
  · have h2 : ¬ 0 < E := not_lt.mpr h.le
    simp [log10, h, h2, mul, MAX, ops, gt]
  · subst h
    simp [log10, mul, MAX, ops, gt, inf, h10]
  · have h2 : ¬ E < 0 := not_lt.mpr h.le
    have h3 : ¬ E = 0 := h.ne.symm
    simp only [log10, h2, h3, if_false, hL, mul, hP, MAX, ops, gt, h, true_and]
    simp

end IEEE

/-- Every value `FFT_forward` writes is neither not-a-number nor `-inf`, whatever the
input and whatever `fftw_one` returns. -/
theorem FFT_forward_ne_nan_ninf {K : Type} [LinearOrderedField K] (rnd lg : K → IEEE.Val K)
    (fftw_one : List (Cplx (IEEE.Val K)) → Nat → Cplx (IEEE.Val K))
    (s : FFTW.State (IEEE.Val K)) (inp out : Rows (IEEE.Val K)) (i j : Nat)
    (hi : (i : Int) < s._BATCHSIZE) (hj : j < s._N.toNat) :
    (FFTW.FFT_forward (IEEE.ops rnd lg) fftw_one s inp out).2 i j ≠ IEEE.Val.nan ∧
    (FFTW.FFT_forward (IEEE.ops rnd lg) fftw_one s inp out).2 i j ≠ IEEE.Val.ninf := by
  have hb : i < s._BATCHSIZE.toNat := by omega
  rw [FFTW.FFT_forward_out]
  simp only [hb, hj, and_self, if_true]
  exact IEEE.dB_ne_nan_ninf rnd lg _ _

/-- A lower bound for `log10 64`. -/
theorem logb_ten_64_gt : (18061 / 10000 : ℝ) < Real.logb 10 64 := by
  rw [Real.lt_logb_iff_rpow_lt (by norm_num) (by norm_num)]
  have h : ((10 : ℝ) ^ (18061 / 10000 : ℝ)) ^ (10000 : ℕ) < (64 : ℝ) ^ (10000 : ℕ) := by
    rw [← Real.rpow_natCast, ← Real.rpow_mul (by norm_num)]
    have : (18061 / 10000 : ℝ) * ((10000 : ℕ) : ℝ) = ((18061 : ℕ) : ℝ) := by norm_num
    rw [this, Real.rpow_natCast]
    norm_num
  exact lt_of_pow_lt_pow_left₀ 10000 (by norm_num) h

/-- An upper bound for `log10 64`. -/
theorem logb_ten_64_lt : Real.logb 10 64 < (18062 / 10000 : ℝ) := by
  rw [Real.logb_lt_iff_lt_rpow (by norm_num) (by norm_num)]
  have h : (64 : ℝ) ^ (10000 : ℕ) < ((10 : ℝ) ^ (18062 / 10000 : ℝ)) ^ (10000 : ℕ) := by
    rw [← Real.rpow_natCast ((10 : ℝ) ^ (18062 / 10000 : ℝ)), ← Real.rpow_mul (by norm_num)]
    have : (18062 / 10000 : ℝ) * ((10000 : ℕ) : ℝ) = ((18062 : ℕ) : ℝ) := by norm_num
    rw [this, Real.rpow_natCast]
    norm_num
  exact lt_of_pow_lt_pow_left₀ 10000 (by positivity) h

/-- The value `10*log10((1/8)^2)` is `-18.061...`. -/
theorem ten_log_eighth_sq :
    -18062 / 1000 < 10 * Real.logb 10 ((1 / 8 : ℝ) ^ 2) ∧
    10 * Real.logb 10 ((1 / 8 : ℝ) ^ 2) < -18061 / 1000 := by
  have e : ((1 / 8 : ℝ) ^ 2) = (64 : ℝ)⁻¹ := by norm_num
  rw [e, Real.logb_inv]
  have h1 := logb_ten_64_gt
  have h2 := logb_ten_64_lt
  constructor <;> linarith

/-- The dB value of the bin `1 + 0i` when `0`, `1/N` and `1/N^2` are not rounded. -/
theorem dB_one_bin {K : Type} [LinearOrderedField K] (rnd lg : K → IEEE.Val K) (N : Int)
    (hN : N ≠ 0) (h0 : rnd 0 = IEEE.Val.fin 0)
    (h1 : rnd (1 / (N : K)) = IEEE.Val.fin (1 / (N : K)))
    (h2 : rnd (1 / (N : K) * (1 / (N : K))) = IEEE.Val.fin (1 / (N : K) * (1 / (N : K)))) :
    dB (IEEE.ops rnd lg) N { re := IEEE.Val.fin 1, im := IEEE.Val.fin 0 }
      = MAX (IEEE.ops rnd lg) ((IEEE.ops rnd lg).mul ((IEEE.ops rnd lg).ofInt 10)
          ((IEEE.ops rnd lg).log10 (IEEE.Val.fin (1 / (N : K) * (1 / (N : K))))))
          ((IEEE.ops rnd lg).ofInt (-100)) := by
  have hNK : (N : K) ≠ 0 := by exact_mod_cast hN
  have e : dB (IEEE.ops rnd lg) N { re := IEEE.Val.fin 1, im := IEEE.Val.fin 0 }
      = MAX (IEEE.ops rnd lg) ((IEEE.ops rnd lg).mul ((IEEE.ops rnd lg).ofInt 10)
          ((IEEE.ops rnd lg).log10 (IEEE.add rnd
            (IEEE.mul rnd (IEEE.div rnd (IEEE.Val.fin 1) (IEEE.Val.fin (N : K)))
              (IEEE.div rnd (IEEE.Val.fin 1) (IEEE.Val.fin (N : K))))
            (IEEE.mul rnd (IEEE.div rnd (IEEE.Val.fin 0) (IEEE.Val.fin (N : K)))
              (IEEE.div rnd (IEEE.Val.fin 0) (IEEE.Val.fin (N : K)))))))
          ((IEEE.ops rnd lg).ofInt (-100)) := rfl
  have d1 : IEEE.div rnd (IEEE.Val.fin 1) (IEEE.Val.fin (N : K))
      = IEEE.Val.fin (1 / (N : K)) := by
    simp only [IEEE.div, hNK, if_false]
    exact h1
  have d0 : IEEE.div rnd (IEEE.Val.fin 0) (IEEE.Val.fin (N : K)) = IEEE.Val.fin 0 := by
    simp only [IEEE.div, hNK, if_false, zero_div]
    exact h0
  rw [e, d1, d0]
  simp only [IEEE.mul, IEEE.add, mul_zero, add_zero, h0, h2]

/-- The output for a bin of magnitude one, in exact arithmetic. -/
theorem dB_unit_bin (N : Int) (hN : N ≠ 0) (a b : ℝ) (hab : a * a + b * b = 1) :
    dB (IEEE.exact (Real.logb 10)) N { re := IEEE.Val.fin a, im := IEEE.Val.fin b }
      = IEEE.Val.fin (max (10 * Real.logb 10 ((1 / (N : ℝ)) ^ 2)) (-100)) := by
  have hNR : (N : ℝ) ≠ 0 := by exact_mod_cast hN
  have hE : a / N * (a / N) + b / N * (b / N) = (1 / (N : ℝ)) ^ 2 := by
    have e : a / N * (a / N) + b / N * (b / N) = (a * a + b * b) * (1 / (N : ℝ)) ^ 2 := by
      ring
    rw [e, hab, one_mul]
  have hne : (1 / (N : ℝ)) ^ 2 ≠ 0 := by positivity
  rw [IEEE.dB_exact_fin _ N hN, hE, if_neg hne]
  by_cases h : -100 < 10 * Real.logb 10 ((1 / (N : ℝ)) ^ 2)
  · rw [if_pos h, max_eq_left h.le]
  · rw [if_neg h, max_eq_right (not_lt.mp h)]

/-! ## Rounding errors in the dB value -/

/-- The square of a rounded value, rounded: if `r` is `x` and `s` is `r*r`, each with a
relative error of at most `u`, then `s` is `x^2` within the factors `(1 ∓ u)^3`. -/
theorem rel_err_sq_bounds (u x r s : ℝ) (hu0 : 0 ≤ u) (hu1 : u < 1)
    (hr : |r - x| ≤ u * |x|) (hs : |s - r * r| ≤ u * |r * r|) :
    (1 - u) ^ 3 * x ^ 2 ≤ s ∧ s ≤ (1 + u) ^ 3 * x ^ 2 := by
  have hx := abs_nonneg x
  have h1 : (1 - u) * |x| ≤ |r| := by
    have := abs_sub_abs_le_abs_sub x r
    rw [abs_sub_comm] at this
    linarith
  have h2 : |r| ≤ (1 + u) * |x| := by
    have := abs_sub_abs_le_abs_sub r x
    linarith
  have hrr : r * r = |r| ^ 2 := by rw [sq_abs]; ring
  have hxx : x ^ 2 = |x| ^ 2 := (sq_abs x).symm
  have h0 : 0 ≤ (1 - u) * |x| := mul_nonneg (by linarith) hx
  have h3 : ((1 - u) * |x|) ^ 2 ≤ |r| ^ 2 := pow_le_pow_left₀ h0 h1 2
  have h4 : |r| ^ 2 ≤ ((1 + u) * |x|) ^ 2 := pow_le_pow_left₀ (abs_nonneg r) h2 2
  have h5 : |r * r| = r * r := abs_of_nonneg (mul_self_nonneg r)
  rw [h5] at hs
  obtain ⟨hs1, hs2⟩ := abs_le.mp hs
  rw [hrr] at hs1 hs2
  constructor
  · calc (1 - u) ^ 3 * x ^ 2 = (1 - u) * ((1 - u) * |x|) ^ 2 := by rw [hxx]; ring
      _ ≤ (1 - u) * |r| ^ 2 := mul_le_mul_of_nonneg_left h3 (by linarith)
      _ ≤ s := by linarith
  · calc s ≤ (1 + u) * |r| ^ 2 := by linarith
      _ ≤ (1 + u) * ((1 + u) * |x|) ^ 2 := mul_le_mul_of_nonneg_left h4 (by linarith)
      _ = (1 + u) ^ 3 * x ^ 2 := by rw [hxx]; ring

/-- The energy `re*re + im*im` from rounded operations, each with a relative error of at
most `u`, is the exact energy within the factors `(1 ∓ u)^4`. -/
theorem rel_err_energy_bounds (u x y r i s t E : ℝ) (hu0 : 0 ≤ u) (hu1 : u < 1)
    (hr : |r - x| ≤ u * |x|) (hi : |i - y| ≤ u * |y|)
    (hs : |s - r * r| ≤ u * |r * r|) (ht : |t - i * i| ≤ u * |i * i|)
    (hE : |E - (s + t)| ≤ u * |s + t|) :
    (1 - u) ^ 4 * (x ^ 2 + y ^ 2) ≤ E ∧ E ≤ (1 + u) ^ 4 * (x ^ 2 + y ^ 2) := by
  obtain ⟨a1, a2⟩ := rel_err_sq_bounds u x r s hu0 hu1 hr hs
  obtain ⟨b1, b2⟩ := rel_err_sq_bounds u y i t hu0 hu1 hi ht
  have hu3 : 0 ≤ (1 - u) ^ 3 := pow_nonneg (by linarith) 3
  have hst1 : (1 - u) ^ 3 * (x ^ 2 + y ^ 2) ≤ s + t := by linarith
  have hst2 : s + t ≤ (1 + u) ^ 3 * (x ^ 2 + y ^ 2) := by linarith
  have hst0 : 0 ≤ s + t :=
    le_trans (mul_nonneg hu3 (add_nonneg (sq_nonneg x) (sq_nonneg y))) hst1
  rw [abs_of_nonneg hst0] at hE
  obtain ⟨e1, e2⟩ := abs_le.mp hE
  constructor
  · calc (1 - u) ^ 4 * (x ^ 2 + y ^ 2) = (1 - u) * ((1 - u) ^ 3 * (x ^ 2 + y ^ 2)) := by ring
      _ ≤ (1 - u) * (s + t) := mul_le_mul_of_nonneg_left hst1 (by linarith)
      _ ≤ E := by linarith
  · calc E ≤ (1 + u) * (s + t) := by linarith
      _ ≤ (1 + u) * ((1 + u) ^ 3 * (x ^ 2 + y ^ 2)) :=
          mul_le_mul_of_nonneg_left hst2 (by linarith)
      _ = (1 + u) ^ 4 * (x ^ 2 + y ^ 2) := by ring

/-- If `y` is `x` within the factors `(1 ∓ ρ)^k`, their logarithms differ by at most
`-k * log10(1 - ρ)`. -/
theorem logb_rel_bound (ρ x y : ℝ) (k : ℕ) (hρ0 : 0 ≤ ρ) (hρ1 : ρ < 1) (hx : 0 < x)
    (hy : 0 < y) (hlo : (1 - ρ) ^ k * x ≤ y) (hhi : y ≤ (1 + ρ) ^ k * x) :
    |Real.logb 10 y - Real.logb 10 x| ≤ k * (-Real.logb 10 (1 - ρ)) := by
  have h1 : 0 < 1 - ρ := by linarith
  have h2 : 0 < 1 + ρ := by linarith
  have hk1 : 0 < (1 - ρ) ^ k := pow_pos h1 k
  have hk2 : 0 < (1 + ρ) ^ k := pow_pos h2 k
  have l1 : Real.logb 10 ((1 - ρ) ^ k * x) ≤ Real.logb 10 y :=
    Real.logb_le_logb_of_le (by norm_num) (mul_pos hk1 hx) hlo
  have l2 : Real.logb 10 y ≤ Real.logb 10 ((1 + ρ) ^ k * x) :=
    Real.logb_le_logb_of_le (by norm_num) hy hhi
  rw [Real.logb_mul hk1.ne.symm hx.ne.symm, Real.logb_pow] at l1
  rw [Real.logb_mul hk2.ne.symm hx.ne.symm, Real.logb_pow] at l2
  have l3 : Real.logb 10 (1 + ρ) ≤ -Real.logb 10 (1 - ρ) := by
    have h3 : Real.logb 10 ((1 + ρ) * (1 - ρ)) ≤ Real.logb 10 1 :=
      Real.logb_le_logb_of_le (by norm_num) (mul_pos h2 h1) (by nlinarith)
    rw [Real.logb_mul h2.ne.symm h1.ne.symm, Real.logb_one] at h3
    linarith
  have hk0 : (0 : ℝ) ≤ k := Nat.cast_nonneg k
  have l4 : (k : ℝ) * Real.logb 10 (1 + ρ) ≤ k * (-Real.logb 10 (1 - ρ)) :=
    mul_le_mul_of_nonneg_left l3 hk0
  rw [abs_le]
  constructor <;> linarith

/-- The dB value of a finite bin whose operations are accurate, when it is not the floor:
it is finite and within `10*ε + η - 40*log10(1 - u)` of `10*log10((a^2 + b^2)/N^2)`. -/
theorem dB_accurate_bound (rnd lg : ℝ → IEEE.Val ℝ) (u ε η : ℝ) (N : Int) (hN : 0 < N)
    (a b : ℝ) (hu0 : 0 ≤ u) (hu1 : u < 1) (hacc : IEEE.dBAccurate rnd lg u ε η N a b)
    (h : dB (IEEE.ops rnd lg) N { re := IEEE.Val.fin a, im := IEEE.Val.fin b }
      ≠ IEEE.Val.fin (-100)) :
    ∃ v, dB (IEEE.ops rnd lg) N { re := IEEE.Val.fin a, im := IEEE.Val.fin b }
        = IEEE.Val.fin v ∧
      0 < a ^ 2 + b ^ 2 ∧
      |v - 10 * Real.logb 10 ((a ^ 2 + b ^ 2) / (N : ℝ) ^ 2)|
        ≤ 10 * ε + η + 40 * (-Real.logb 10 (1 - u)) := by
  obtain ⟨r, i, s, t, E, L, P, ⟨hr, hr2⟩, ⟨hi, hi2⟩, ⟨hs, hs2⟩, ⟨ht, ht2⟩,
    ⟨hE, hE2⟩, ⟨hL, hL2⟩, ⟨hP, hP2⟩⟩ := hacc
  have hNz : N ≠ 0 := by omega
  have hNR : (0 : ℝ) < N := by exact_mod_cast hN
  rw [IEEE.dB_of_roundings rnd lg N hNz a b r i s t E L P hr hi hs ht hE hL hP] at h ⊢
  by_cases hc : 0 < E ∧ -100 < P
  · rw [if_pos hc]
    obtain ⟨e1, e2⟩ := rel_err_energy_bounds u (a / N) (b / N) r i s t E hu0 hu1 hr2 hi2 hs2
      ht2 hE2
    have hxy : (a / N) ^ 2 + (b / N) ^ 2 = (a ^ 2 + b ^ 2) / (N : ℝ) ^ 2 := by
      field_simp
    rw [hxy] at e1 e2
    have hu4 : 0 < (1 + u) ^ 4 := pow_pos (by linarith) 4
    have hE0 : 0 < (a ^ 2 + b ^ 2) / (N : ℝ) ^ 2 := by
      by_contra hneg
      have : (1 + u) ^ 4 * ((a ^ 2 + b ^ 2) / (N : ℝ) ^ 2) ≤ 0 :=
        mul_nonpos_of_nonneg_of_nonpos hu4.le (not_lt.mp hneg)
      linarith [hc.1]
    have hab : 0 < a ^ 2 + b ^ 2 := by
      have hN2 : (0 : ℝ) < (N : ℝ) ^ 2 := pow_pos hNR 2
      have := mul_pos hE0 hN2
      rwa [div_mul_cancel₀ _ hN2.ne.symm] at this
    have hlog := logb_rel_bound u ((a ^ 2 + b ^ 2) / (N : ℝ) ^ 2) E 4 hu0 hu1 hE0 hc.1 e1 e2
    refine ⟨P, rfl, hab, ?_⟩
    have k4 : ((4 : ℕ) : ℝ) = 4 := by norm_num
    rw [k4] at hlog
    obtain ⟨p1, p2⟩ := abs_le.mp hP2
    obtain ⟨q1, q2⟩ := abs_le.mp hL2
    obtain ⟨g1, g2⟩ := abs_le.mp hlog
    rw [abs_le]
    constructor <;> linarith
  · rw [if_neg hc] at h
    exact absurd rfl h

/-- Arithmetic that does not round is accurate with all error bounds zero. -/
theorem dBAccurate_exact (N : Int) (a b : ℝ) :
    IEEE.dBAccurate IEEE.Val.fin (fun x => IEEE.Val.fin (Real.logb 10 x)) 0 0 0 N a b :=
  ⟨a / N, b / N, a / N * (a / N), b / N * (b / N), a / N * (a / N) + b / N * (b / N),
    Real.logb 10 (a / N * (a / N) + b / N * (b / N)),
    10 * Real.logb 10 (a / N * (a / N) + b / N * (b / N)),
    ⟨rfl, by simp⟩, ⟨rfl, by simp⟩, ⟨rfl, by simp⟩, ⟨rfl, by simp⟩,
    ⟨rfl, by simp⟩, ⟨rfl, by simp⟩, ⟨rfl, by simp⟩⟩

theorem rel_err_abs (e x : ℝ) (he : 0 ≤ e) : |x * (1 + e) - x| ≤ e * |x| := by
  have : x * (1 + e) - x = e * x := by ring
  rw [this, abs_mul, abs_of_nonneg he]

/-- Arithmetic in which every result is off by the relative amount `e` is accurate with
relative error `e`; the product by 10 is off by `e * |10 * L|`. -/
theorem dBAccurate_rel (e η : ℝ) (he : 0 ≤ e) (N : Int) (a b : ℝ)
    (hη : e * |10 * Real.logb 10
      ((a / N * (1 + e) * (a / N * (1 + e)) * (1 + e)
        + b / N * (1 + e) * (b / N * (1 + e)) * (1 + e)) * (1 + e))| ≤ η) :
    IEEE.dBAccurate (IEEE.rndRel e) (fun x => IEEE.Val.fin (Real.logb 10 x)) e 0 η N a b :=
  ⟨a / N * (1 + e), b / N * (1 + e), a / N * (1 + e) * (a / N * (1 + e)) * (1 + e),
    b / N * (1 + e) * (b / N * (1 + e)) * (1 + e),
    (a / N * (1 + e) * (a / N * (1 + e)) * (1 + e)
      + b / N * (1 + e) * (b / N * (1 + e)) * (1 + e)) * (1 + e),
    Real.logb 10 ((a / N * (1 + e) * (a / N * (1 + e)) * (1 + e)
      + b / N * (1 + e) * (b / N * (1 + e)) * (1 + e)) * (1 + e)),
    10 * Real.logb 10 ((a / N * (1 + e) * (a / N * (1 + e)) * (1 + e)
      + b / N * (1 + e) * (b / N * (1 + e)) * (1 + e)) * (1 + e)) * (1 + e),
    ⟨rfl, rel_err_abs e _ he⟩, ⟨rfl, rel_err_abs e _ he⟩, ⟨rfl, rel_err_abs e _ he⟩,
    ⟨rfl, rel_err_abs e _ he⟩, ⟨rfl, rel_err_abs e _ he⟩, ⟨rfl, by simp⟩,
    ⟨rfl, le_trans (rel_err_abs e _ he) hη⟩⟩

/-- A finite result below the overflow threshold is kept. -/
theorem IEEE.rndOverflow_fin {K : Type} [LinearOrderedField K] (big x : K) (h : |x| < big) :
    IEEE.rndOverflow big x = IEEE.Val.fin x := by
  unfold IEEE.rndOverflow
  rw [if_neg (not_le.mpr h)]

/-- A positive result at or above the overflow threshold becomes `+inf`. -/
theorem IEEE.rndOverflow_pinf {K : Type} [LinearOrderedField K] (big x : K) (hb : 0 < big)
    (h : big ≤ x) : IEEE.rndOverflow big x = IEEE.Val.pinf := by
  have hx : 0 < x := lt_of_lt_of_le hb h
  unfold IEEE.rndOverflow
  rw [if_pos (le_trans h (le_abs_self x))]
  simp [IEEE.inf, hx]

theorem logb_ten_ge_neg_two (x : ℝ) (hx : 1 / 100 ≤ x) : -2 ≤ Real.logb 10 x := by
  have h : Real.logb 10 (1 / 100) = -2 := by
    have e : (1 / 100 : ℝ) = ((10 : ℝ) ^ 2)⁻¹ := by norm_num
    rw [e, Real.logb_inv, Real.logb_pow, Real.logb_self_eq_one (by norm_num)]
    norm_num
  rw [← h]
  exact Real.logb_le_logb_of_le (by norm_num) (by norm_num) hx

theorem logb_ten_le_one (x : ℝ) (h0 : 0 < x) (hx : x ≤ 10) : Real.logb 10 x ≤ 1 := by
  have h : Real.logb 10 10 = 1 := Real.logb_self_eq_one (by norm_num)
  rw [← h]
  exact Real.logb_le_logb_of_le (by norm_num) h0 hx

/-- A dB value whose operations return finite values, with positive energy and a product
above the floor, is not the floor. -/
theorem IEEE.dB_not_floor (rnd lg : ℝ → IEEE.Val ℝ) (N : Int) (hN : N ≠ 0)
    (a b r i s t E L P : ℝ)
    (hr : rnd (a / N) = IEEE.Val.fin r) (hi : rnd (b / N) = IEEE.Val.fin i)
    (hs : rnd (r * r) = IEEE.Val.fin s) (ht : rnd (i * i) = IEEE.Val.fin t)
    (hE : rnd (s + t) = IEEE.Val.fin E) (hL : lg E = IEEE.Val.fin L)
    (hP : rnd (10 * L) = IEEE.Val.fin P) (hE0 : 0 < E) (hP0 : -100 < P) :
    dB (IEEE.ops rnd lg) N { re := IEEE.Val.fin a, im := IEEE.Val.fin b }
      ≠ IEEE.Val.fin (-100) := by
  rw [IEEE.dB_of_roundings rnd lg N hN a b r i s t E L P hr hi hs ht hE hL hP,
    if_pos (And.intro hE0 hP0)]
  intro h
  have := IEEE.Val.fin.inj h
  linarith

/-! ## The reference transform on the zero row and on the impulse -/

theorem naiveDFT_impulse_aux {K : Type} [LinearOrderedField K] (lg : K → K)
    (tw : Nat → Cplx (IEEE.Val K)) (h0 : tw 0 = { re := IEEE.Val.fin 1, im := IEEE.Val.fin 0 })
    (hfin : ∀ r, ∃ c s, tw r = { re := IEEE.Val.fin c, im := IEEE.Val.fin s })
    (N k n : Nat) (hn : n ≤ N) :
    (List.range n).foldl (dftTerm (IEEE.exact lg) tw (samples impulse N) k)
      { re := (IEEE.exact lg).ofInt 0, im := (IEEE.exact lg).ofInt 0 }
    = if n = 0 then { re := IEEE.Val.fin 0, im := IEEE.Val.fin 0 }
      else { re := IEEE.Val.fin 1, im := IEEE.Val.fin 0 } := by
  induction n with
  | zero => simp [IEEE.exact, IEEE.ops]
  | succ n ih =>
    rw [List.range_succ, List.foldl_append, ih (by omega)]
    simp only [List.foldl_cons, List.foldl_nil, dftTerm, samples_length]
    rw [samples_getD impulse N n _ (by omega)]
    obtain ⟨c, s, hcs⟩ := hfin (n * k % N)
    by_cases hz : n = 0
    · subst hz
      simp [h0, impulse, IEEE.exact, IEEE.ops, IEEE.add, IEEE.mul]
    · simp [hcs, hz, impulse, IEEE.exact, IEEE.ops, IEEE.add, IEEE.mul]

/-- The DFT of the unit impulse is 1 at every bin. -/
theorem naiveDFT_impulse {K : Type} [LinearOrderedField K] (lg : K → K)
    (tw : Nat → Cplx (IEEE.Val K)) (h0 : tw 0 = { re := IEEE.Val.fin 1, im := IEEE.Val.fin 0 })
    (hfin : ∀ r, ∃ c s, tw r = { re := IEEE.Val.fin c, im := IEEE.Val.fin s })
    (N k : Nat) (hN : 0 < N) :
    naiveDFT (IEEE.exact lg) tw (samples impulse N) k
      = { re := IEEE.Val.fin 1, im := IEEE.Val.fin 0 } := by
  unfold naiveDFT
  rw [samples_length, naiveDFT_impulse_aux lg tw h0 hfin N k N le_rfl, if_neg (by omega)]

theorem naiveDFT_zero_aux {K : Type} [LinearOrderedField K] (lg : K → K)
    (tw : Nat → Cplx (IEEE.Val K))
    (hfin : ∀ r, ∃ c s, tw r = { re := IEEE.Val.fin c, im := IEEE.Val.fin s })
    (N k n : Nat) (hn : n ≤ N) :
    (List.range n).foldl
      (dftTerm (IEEE.exact lg) tw (samples (fun _ => IEEE.Val.fin 0) N) k)
      { re := (IEEE.exact lg).ofInt 0, im := (IEEE.exact lg).ofInt 0 }
    = { re := IEEE.Val.fin 0, im := IEEE.Val.fin 0 } := by
  induction n with
  | zero => simp [IEEE.exact, IEEE.ops]
  | succ n ih =>
    rw [List.range_succ, List.foldl_append, ih (by omega)]
    simp only [List.foldl_cons, List.foldl_nil, dftTerm, samples_length]
    rw [samples_getD _ N n _ (by omega)]
    obtain ⟨c, s, hcs⟩ := hfin (n * k % N)
    simp [hcs, IEEE.exact, IEEE.ops, IEEE.add, IEEE.mul]

/-- The DFT of the zero row is zero at every bin. -/
theorem naiveDFT_zero {K : Type} [LinearOrderedField K] (lg : K → K)
    (tw : Nat → Cplx (IEEE.Val K))
    (hfin : ∀ r, ∃ c s, tw r = { re := IEEE.Val.fin c, im := IEEE.Val.fin s })
    (N k : Nat) :
    naiveDFT (IEEE.exact lg) tw (samples (fun _ => IEEE.Val.fin 0) N) k
      = { re := IEEE.Val.fin 0, im := IEEE.Val.fin 0 } := by
  unfold naiveDFT
  rw [samples_length, naiveDFT_zero_aux lg tw hfin N k N le_rfl]

theorem naiveDFT_spike_aux {K : Type} [LinearOrderedField K] (rnd lg : K → IEEE.Val K) (c : K)
    (h0 : rnd 0 = IEEE.Val.fin 0) (hc : rnd c = IEEE.Val.fin c)
    (tw : Nat → Cplx (IEEE.Val K)) (h0tw : tw 0 = { re := IEEE.Val.fin 1, im := IEEE.Val.fin 0 })
    (hfin : ∀ r, ∃ p q, tw r = { re := IEEE.Val.fin p, im := IEEE.Val.fin q })
    (row : Nat → IEEE.Val K) (hr0 : row 0 = IEEE.Val.fin c)
    (hrow : ∀ m, 0 < m → row m = IEEE.Val.fin 0) (N k n : Nat) (hn : n ≤ N) :
    (List.range n).foldl (dftTerm (IEEE.ops rnd lg) tw (samples row N) k)
      { re := (IEEE.ops rnd lg).ofInt 0, im := (IEEE.ops rnd lg).ofInt 0 }
    = if n = 0 then { re := IEEE.Val.fin 0, im := IEEE.Val.fin 0 }
      else { re := IEEE.Val.fin c, im := IEEE.Val.fin 0 } := by
  induction n with
  | zero => simp [IEEE.ops]
  | succ n ih =>
    rw [List.range_succ, List.foldl_append, ih (by omega)]
    simp only [List.foldl_cons, List.foldl_nil, dftTerm, samples_length]
    rw [samples_getD row N n _ (by omega)]
    obtain ⟨p, q, hpq⟩ := hfin (n * k % N)
    by_cases hz : n = 0
    · subst hz
      simp [h0tw, hr0, hrow 1 (by omega), IEEE.ops, IEEE.add, IEEE.mul, h0, hc]
    · have e1 : row (2 * n) = IEEE.Val.fin 0 := hrow _ (by omega)
      have e2 : row (2 * n + 1) = IEEE.Val.fin 0 := hrow _ (by omega)
      simp [hpq, hz, e1, e2, IEEE.ops, IEEE.add, IEEE.mul, h0, hc]

/-- The DFT of a row that is `c` at sample 0 and zero elsewhere is `c` at every bin, in any
arithmetic that rounds neither `0` nor `c`. -/
theorem naiveDFT_spike {K : Type} [LinearOrderedField K] (rnd lg : K → IEEE.Val K) (c : K)
    (h0 : rnd 0 = IEEE.Val.fin 0) (hc : rnd c = IEEE.Val.fin c)
    (tw : Nat → Cplx (IEEE.Val K)) (h0tw : tw 0 = { re := IEEE.Val.fin 1, im := IEEE.Val.fin 0 })
    (hfin : ∀ r, ∃ p q, tw r = { re := IEEE.Val.fin p, im := IEEE.Val.fin q })
    (row : Nat → IEEE.Val K) (hr0 : row 0 = IEEE.Val.fin c)
    (hrow : ∀ m, 0 < m → row m = IEEE.Val.fin 0) (N k : Nat) (hN : 0 < N) :
    naiveDFT (IEEE.ops rnd lg) tw (samples row N) k
      = { re := IEEE.Val.fin c, im := IEEE.Val.fin 0 } := by
  unfold naiveDFT
  rw [samples_length, naiveDFT_spike_aux rnd lg c h0 hc tw h0tw hfin row hr0 hrow N k N le_rfl,
    if_neg (by omega)]

theorem twiddle_fin {K : Type} [LinearOrderedField K] (cosv sinv : K → K) (turn : K)
    (N : Nat) : ∀ r, ∃ c s, twiddle cosv sinv turn N r
      = { re := IEEE.Val.fin c, im := IEEE.Val.fin s } :=
  fun _ => ⟨_, _, rfl⟩

theorem twiddle_real_zero (N : Nat) :
    twiddle Real.cos Real.sin (2 * Real.pi) N 0
      = { re := IEEE.Val.fin 1, im := IEEE.Val.fin 0 } := by
  simp [twiddle]

theorem twiddle_real_half :
    twiddle Real.cos Real.sin (2 * Real.pi) 2 1
      = { re := IEEE.Val.fin (-1), im := IEEE.Val.fin 0 } := by
  have e : 2 * Real.pi * ((1 : ℕ) : ℝ) / ((2 : ℕ) : ℝ) = Real.pi := by
    push_cast; ring
  unfold twiddle
  rw [e]
  simp

/-! ## The output formula (C1) -/

namespace FFTW

/-- Claim C1.  For a length `_N = 2^log2N`, every row `i < _BATCHSIZE` and every output
index `j < _N`, `FFT_forward` (FFTW build) leaves in `out[i][j]` the value
`MAX(10*log10((re/N)^2 + (im/N)^2), -100)`, where `(re, im)` is bin `N/2+j` (for
`j < N/2`) or bin `j-N/2` (for `j ≥ N/2`) of what `fftw_one` returns for the `N` complex
samples `(in[i][2m], in[i][2m+1])`.  This holds for every interpretation of the
floating-point operations and whatever the scratch blocks held. -/
theorem FFT_forward_value {F : Type} (A : FloatOps F)
    (fftw_one : List (Cplx F) → Nat → Cplx F) (s : State F) (inp out : Rows F)
    (log2N i j : Nat) (hN : s._N = 2 ^ log2N) (hi : (i : Int) < s._BATCHSIZE)
    (hj : j < 2 ^ log2N) :
    (FFT_forward A fftw_one s inp out).2 i j =
      MAX A (A.mul (A.ofInt 10) (A.log10 (A.add
        (A.mul
          (A.div (fftw_one (samples (inp i) (2 ^ log2N))
            (if j < 2 ^ log2N / 2 then 2 ^ log2N / 2 + j else j - 2 ^ log2N / 2)).re
            (A.ofInt (2 ^ log2N)))
          (A.div (fftw_one (samples (inp i) (2 ^ log2N))
            (if j < 2 ^ log2N / 2 then 2 ^ log2N / 2 + j else j - 2 ^ log2N / 2)).re
            (A.ofInt (2 ^ log2N))))
        (A.mul
          (A.div (fftw_one (samples (inp i) (2 ^ log2N))
            (if j < 2 ^ log2N / 2 then 2 ^ log2N / 2 + j else j - 2 ^ log2N / 2)).im
            (A.ofInt (2 ^ log2N)))
          (A.div (fftw_one (samples (inp i) (2 ^ log2N))
            (if j < 2 ^ log2N / 2 then 2 ^ log2N / 2 + j else j - 2 ^ log2N / 2)).im
            (A.ofInt (2 ^ log2N))))))) (A.ofInt (-100)) := by
  have hn : s._N.toNat = 2 ^ log2N := by rw [hN]; exact_mod_cast Int.toNat_natCast (2 ^ log2N)
  have hb : i < s._BATCHSIZE.toNat := by omega
  rw [FFT_forward_out, hn, hN]
  simp only [hb, hj, and_self, if_true]
  rfl

end FFTW

/-- Claim C1 at `FFT_initialize(3, 1)`, an impulse row, `i = 0`, `j = 5`: the output is the
dB value of raw bin `5 - 4 = 1`. -/
theorem FFT_forward_value_witness :
    (FFTW.FFT_forward (IEEE.exact (Real.logb 10))
        (naiveDFT (IEEE.exact (Real.logb 10)) (twiddle Real.cos Real.sin (2 * Real.pi) 8))
        ( FFTW.FFT_initialize 3 1 1 2 3
          (FFTW.State.start { re := IEEE.Val.fin 0, im := IEEE.Val.fin 0 }))
        (fun _ => impulse) (fun _ _ => IEEE.Val.fin 0)).2 0 5
      = dB (IEEE.exact (Real.logb 10)) (2 ^ 3)
          (naiveDFT (IEEE.exact (Real.logb 10)) (twiddle Real.cos Real.sin (2 * Real.pi) 8)
            (samples impulse (2 ^ 3)) (5 - 2 ^ 3 / 2)) :=
  FFTW.FFT_forward_value (IEEE.exact (Real.logb 10))
    (naiveDFT (IEEE.exact (Real.logb 10)) (twiddle Real.cos Real.sin (2 * Real.pi) 8))
    ( FFTW.FFT_initialize 3 1 1 2 3
      (FFTW.State.start { re := IEEE.Val.fin 0, im := IEEE.Val.fin 0 }))
    (fun _ => impulse) (fun _ _ => IEEE.Val.fin 0) 3 0 5 (by decide) (by decide) (by decide)

/-! ## The frequency shift (C2) -/

/-- Claim C2.  Let `_N = 2^log2N`, `i < _BATCHSIZE`, `k < _N`, and let the raw transform
of row `i` (what `fftw_one` returns for its samples) be zero at every bin but `k`.  Then
in row `i` of the output of `FFT_forward` the value derived from bin `k` stands at index
`(k + N/2) mod N`, every other index `j < N` holds the floor `-100`, raw bin 0 stands at
index `N/2`, and each output index `j < N` reads raw bin `shiftSrc N j`, which is bin `k`
exactly when `j = (k + N/2) mod N`: every raw bin appears at exactly one output index.
(IEEE special values, any rounding that keeps zero.) -/
theorem FFT_forward_shift {K : Type} [LinearOrderedField K] (rnd lg : K → IEEE.Val K)
    (fftw_one : List (Cplx (IEEE.Val K)) → Nat → Cplx (IEEE.Val K))
    (s : FFTW.State (IEEE.Val K)) (inp out : Rows (IEEE.Val K)) (log2N i k : Nat)
    (h0 : rnd 0 = IEEE.Val.fin 0)
    (hN : s._N = 2 ^ log2N) (hi : (i : Int) < s._BATCHSIZE) (hk : k < 2 ^ log2N)
    (hzero : ∀ k2, k2 < 2 ^ log2N → k2 ≠ k →
      fftw_one (samples (inp i) (2 ^ log2N)) k2
        = { re := IEEE.Val.fin 0, im := IEEE.Val.fin 0 }) :
    (FFTW.FFT_forward (IEEE.ops rnd lg) fftw_one s inp out).2 i ((k + 2 ^ log2N / 2) % 2 ^ log2N)
      = dB (IEEE.ops rnd lg) (2 ^ log2N) (fftw_one (samples (inp i) (2 ^ log2N)) k) ∧
    (∀ j, j < 2 ^ log2N → j ≠ (k + 2 ^ log2N / 2) % 2 ^ log2N →
      (FFTW.FFT_forward (IEEE.ops rnd lg) fftw_one s inp out).2 i j = IEEE.Val.fin (-100)) ∧
    (FFTW.FFT_forward (IEEE.ops rnd lg) fftw_one s inp out).2 i (2 ^ log2N / 2)
      = dB (IEEE.ops rnd lg) (2 ^ log2N) (fftw_one (samples (inp i) (2 ^ log2N)) 0) ∧
    (∀ j, j < 2 ^ log2N →
      (FFTW.FFT_forward (IEEE.ops rnd lg) fftw_one s inp out).2 i j
        = dB (IEEE.ops rnd lg) (2 ^ log2N)
            (fftw_one (samples (inp i) (2 ^ log2N)) (shiftSrc (2 ^ log2N) j)) ∧
      ∀ k2, k2 < 2 ^ log2N →
        (shiftSrc (2 ^ log2N) j = k2 ↔ j = (k2 + 2 ^ log2N / 2) % 2 ^ log2N)) := by
  have hn : s._N.toNat = 2 ^ log2N := by rw [hN]; exact_mod_cast Int.toNat_natCast (2 ^ log2N)
  have hb : i < s._BATCHSIZE.toNat := by omega
  have hpos : 0 < 2 ^ log2N := by positivity
  have hpar := pow_two_one_or_even log2N
  have hval : ∀ j, j < 2 ^ log2N →
      (FFTW.FFT_forward (IEEE.ops rnd lg) fftw_one s inp out).2 i j
        = dB (IEEE.ops rnd lg) (2 ^ log2N)
            (fftw_one (samples (inp i) (2 ^ log2N)) (shiftSrc (2 ^ log2N) j)) := by
    intro j hj
    rw [FFTW.FFT_forward_out, hn, hN]
    simp only [hb, hj, and_self, if_true]
  have hmod : ∀ k2, (k2 + 2 ^ log2N / 2) % 2 ^ log2N < 2 ^ log2N :=
    fun k2 => Nat.mod_lt _ hpos
  refine ⟨?_, ?_, ?_, ?_⟩
  · rw [hval _ (hmod k), (shiftSrc_eq_iff hpar (hmod k) hk).mpr rfl]
  · intro j hj hne
    have hsrc : shiftSrc (2 ^ log2N) j ≠ k := fun e => hne ((shiftSrc_eq_iff hpar hj hk).mp e)
    rw [hval j hj, hzero _ (shiftSrc_lt hj) hsrc]
    have hNz : ((2 : Int) ^ log2N) ≠ 0 := by positivity
    exact IEEE.dB_zero rnd lg h0 (2 ^ log2N) hNz
  · have h2 : 2 ^ log2N / 2 < 2 ^ log2N := Nat.div_lt_self hpos (by norm_num)
    have e : 2 ^ log2N / 2 = (0 + 2 ^ log2N / 2) % 2 ^ log2N := by
      rw [Nat.zero_add, Nat.mod_eq_of_lt h2]
    rw [hval _ h2, (shiftSrc_eq_iff hpar h2 hpos).mpr e]
  · intro j hj
    exact ⟨hval j hj, fun k2 hk2 => shiftSrc_eq_iff hpar hj hk2⟩

/-- Claim C2 at length 2 and the row `(1, 1)`, whose transform is `(2, 0)`: raw bin 0
stands at output index 1, and output index 0 holds the floor. -/
theorem FFT_forward_shift_witness :
    (FFTW.FFT_forward (IEEE.exact (Real.logb 10))
        (naiveDFT (IEEE.exact (Real.logb 10)) (twiddle Real.cos Real.sin (2 * Real.pi) 2))
        ( FFTW.FFT_initialize 1 1 1 2 3
          (FFTW.State.start { re := IEEE.Val.fin 0, im := IEEE.Val.fin 0 }))
        (fun _ m => if m % 2 = 0 then IEEE.Val.fin 1 else IEEE.Val.fin 0)
        (fun _ _ => IEEE.Val.fin 0)).2 0 ((0 + 2 ^ 1 / 2) % 2 ^ 1)
      = dB (IEEE.exact (Real.logb 10)) (2 ^ 1)
          (naiveDFT (IEEE.exact (Real.logb 10)) (twiddle Real.cos Real.sin (2 * Real.pi) 2)
            (samples (fun m => if m % 2 = 0 then IEEE.Val.fin 1 else IEEE.Val.fin 0)
              (2 ^ 1)) 0) ∧
    (FFTW.FFT_forward (IEEE.exact (Real.logb 10))
        (naiveDFT (IEEE.exact (Real.logb 10)) (twiddle Real.cos Real.sin (2 * Real.pi) 2))
        ( FFTW.FFT_initialize 1 1 1 2 3
          (FFTW.State.start { re := IEEE.Val.fin 0, im := IEEE.Val.fin 0 }))
        (fun _ m => if m % 2 = 0 then IEEE.Val.fin 1 else IEEE.Val.fin 0)
        (fun _ _ => IEEE.Val.fin 0)).2 0 0 = IEEE.Val.fin (-100) := by
  have hz : ∀ k2, k2 < 2 ^ 1 → k2 ≠ 0 →
      naiveDFT (IEEE.exact (Real.logb 10)) (twiddle Real.cos Real.sin (2 * Real.pi) 2)
        (samples (fun m => if m % 2 = 0 then IEEE.Val.fin 1 else IEEE.Val.fin 0) (2 ^ 1)) k2
        = { re := IEEE.Val.fin 0, im := IEEE.Val.fin (0 : ℝ) } := by
    intro k2 h1 h2
    have hk : k2 = 1 := by omega
    subst hk
    have t0 := twiddle_real_zero 2
    have t1 := twiddle_real_half
    simp [naiveDFT, dftTerm, samples, List.range_succ, t0, t1, IEEE.exact, IEEE.ops,
      IEEE.add, IEEE.mul]
  have h := FFT_forward_shift IEEE.Val.fin (fun x => IEEE.Val.fin (Real.logb 10 x))
    (naiveDFT (IEEE.exact (Real.logb 10)) (twiddle Real.cos Real.sin (2 * Real.pi) 2))
    ( FFTW.FFT_initialize 1 1 1 2 3
      (FFTW.State.start { re := IEEE.Val.fin 0, im := IEEE.Val.fin 0 }))
    (fun _ m => if m % 2 = 0 then IEEE.Val.fin 1 else IEEE.Val.fin 0)
    (fun _ _ => IEEE.Val.fin 0) 1 0 0 rfl (by decide) (by decide) (by decide) hz
  exact ⟨h.1, h.2.1 0 (by decide) (by decide)⟩

/-! ## The zero row (C3) -/

/-- Claim C3.  A row of which all `2*_N` samples are zero gets `-100` exactly at every
one of its `_N` outputs, for every `_N` and `_BATCHSIZE` and whatever the other rows
hold: the transform of the zero row is zero, its energy is zero, `log10` gives `-inf`
and `MAX` replaces it by `-100`; the output is neither not-a-number nor `-inf`.
(IEEE special values, any rounding that keeps zero.) -/
theorem FFT_forward_zero_row {K : Type} [LinearOrderedField K] (rnd lg : K → IEEE.Val K)
    (fftw_one : List (Cplx (IEEE.Val K)) → Nat → Cplx (IEEE.Val K))
    (s : FFTW.State (IEEE.Val K)) (inp out : Rows (IEEE.Val K)) (i j : Nat)
    (h0 : rnd 0 = IEEE.Val.fin 0)
    (hdft : ∀ k, k < s._N.toNat →
      fftw_one (samples (fun _ => IEEE.Val.fin 0) s._N.toNat) k
        = { re := IEEE.Val.fin 0, im := IEEE.Val.fin 0 })
    (hrow : ∀ m, m < 2 * s._N.toNat → inp i m = IEEE.Val.fin 0)
    (hi : (i : Int) < s._BATCHSIZE) (hj : j < s._N.toNat) :
    (FFTW.FFT_forward (IEEE.ops rnd lg) fftw_one s inp out).2 i j = IEEE.Val.fin (-100) ∧
    (FFTW.FFT_forward (IEEE.ops rnd lg) fftw_one s inp out).2 i j ≠ IEEE.Val.nan ∧
    (FFTW.FFT_forward (IEEE.ops rnd lg) fftw_one s inp out).2 i j ≠ IEEE.Val.ninf := by
  have hb : i < s._BATCHSIZE.toNat := by omega
  have hNz : s._N ≠ 0 := by omega
  have hv : (FFTW.FFT_forward (IEEE.ops rnd lg) fftw_one s inp out).2 i j
      = IEEE.Val.fin (-100) := by
    rw [FFTW.FFT_forward_out]
    simp only [hb, hj, and_self, if_true]
    rw [samples_congr (inp i) (fun _ => IEEE.Val.fin 0) s._N.toNat hrow,
      hdft _ (shiftSrc_lt hj)]
    exact IEEE.dB_zero rnd lg h0 s._N hNz
  refine ⟨hv, ?_, ?_⟩ <;> rw [hv] <;> simp

/-- Claim C3 at `FFT_initialize(3, 2)`, row 0 all zero and row 1 an impulse: output
`[0][5]` is the floor. -/
theorem FFT_forward_zero_row_witness :
    (FFTW.FFT_forward (IEEE.exact (Real.logb 10))
        (naiveDFT (IEEE.exact (Real.logb 10)) (twiddle Real.cos Real.sin (2 * Real.pi) 8))
        ( FFTW.FFT_initialize 3 2 1 2 3
          (FFTW.State.start { re := IEEE.Val.fin 0, im := IEEE.Val.fin 0 }))
        (fun i m => if i = 0 then IEEE.Val.fin 0 else impulse m)
        (fun _ _ => IEEE.Val.fin 0)).2 0 5 = IEEE.Val.fin (-100) :=
  (FFT_forward_zero_row IEEE.Val.fin (fun x => IEEE.Val.fin (Real.logb 10 x))
    (naiveDFT (IEEE.exact (Real.logb 10)) (twiddle Real.cos Real.sin (2 * Real.pi) 8))
    ( FFTW.FFT_initialize 3 2 1 2 3
      (FFTW.State.start { re := IEEE.Val.fin 0, im := IEEE.Val.fin 0 }))
    (fun i m => if i = 0 then IEEE.Val.fin 0 else impulse m)
    (fun _ _ => IEEE.Val.fin 0) 0 5 rfl
    (fun k _ => naiveDFT_zero (Real.logb 10) _ (twiddle_fin _ _ _ 8) 8 k)
    (fun _ _ => rfl) (by decide) (by decide)).1

/-! ## The unit impulse (C4) -/

/-- Claim C4.  Let row `i` be the unit impulse at sample 0 and let the raw transform of
the impulse be 1 at every bin (magnitude 1), as for the DFT.  In IEEE arithmetic in which
`0`, `1/N` and `1/N^2` are not rounded (`N = 2^log2N`), `FFT_forward` writes the same value
`MAX(10*log10((1/N)^2), -100)` to every output `j < N` of the row.  For `log2N = 3`, when
the library's `log10(1/64)` is within `1e-5` of the logarithm and the product by 10 is
rounded by at most `1e-4`, that value lies between `-18.07` and `-18.06`: it is not
clamped.  In exact arithmetic the value is `max(10*log10((1/N)^2), -100)` as a real
number. -/
theorem FFT_forward_impulse (rnd lg : ℝ → IEEE.Val ℝ)
    (fftw_one : List (Cplx (IEEE.Val ℝ)) → Nat → Cplx (IEEE.Val ℝ))
    (s : FFTW.State (IEEE.Val ℝ)) (inp out : Rows (IEEE.Val ℝ)) (log2N i j : Nat)
    (hN : s._N = 2 ^ log2N) (hi : (i : Int) < s._BATCHSIZE) (hj : j < 2 ^ log2N)
    (hrow : ∀ m, m < 2 * 2 ^ log2N → inp i m = impulse m)
    (hdft : ∀ k, k < 2 ^ log2N → fftw_one (samples impulse (2 ^ log2N)) k
      = { re := IEEE.Val.fin 1, im := IEEE.Val.fin 0 })
    (h0 : rnd 0 = IEEE.Val.fin 0)
    (h1 : rnd (1 / 2 ^ log2N) = IEEE.Val.fin (1 / 2 ^ log2N))
    (h2 : rnd (1 / 2 ^ log2N * (1 / 2 ^ log2N))
      = IEEE.Val.fin (1 / 2 ^ log2N * (1 / 2 ^ log2N))) :
    (FFTW.FFT_forward (IEEE.ops rnd lg) fftw_one s inp out).2 i j
      = MAX (IEEE.ops rnd lg) ((IEEE.ops rnd lg).mul ((IEEE.ops rnd lg).ofInt 10)
          ((IEEE.ops rnd lg).log10 (IEEE.Val.fin (1 / 2 ^ log2N * (1 / 2 ^ log2N)))))
          ((IEEE.ops rnd lg).ofInt (-100)) ∧
    (log2N = 3 → ∀ L V : ℝ,
      lg (1 / 8 * (1 / 8)) = IEEE.Val.fin L →
      |L - Real.logb 10 ((1 / 8 : ℝ) ^ 2)| ≤ 1 / 100000 →
      rnd (10 * L) = IEEE.Val.fin V → |V - 10 * L| ≤ 1 / 10000 →
      (FFTW.FFT_forward (IEEE.ops rnd lg) fftw_one s inp out).2 i j = IEEE.Val.fin V ∧
      -1807 / 100 < V ∧ V < -1806 / 100) ∧
    ((∀ x, rnd x = IEEE.Val.fin x) → (∀ x, lg x = IEEE.Val.fin (Real.logb 10 x)) →
      (FFTW.FFT_forward (IEEE.ops rnd lg) fftw_one s inp out).2 i j
        = IEEE.Val.fin (max (10 * Real.logb 10 ((1 / (2 : ℝ) ^ log2N) ^ 2)) (-100))) := by
  have hn : s._N.toNat = 2 ^ log2N := by rw [hN]; exact_mod_cast Int.toNat_natCast (2 ^ log2N)
  have hb : i < s._BATCHSIZE.toNat := by omega
  have hNz : ((2 : Int) ^ log2N) ≠ 0 := by positivity
  have hbin : (FFTW.FFT_forward (IEEE.ops rnd lg) fftw_one s inp out).2 i j
      = dB (IEEE.ops rnd lg) (2 ^ log2N) { re := IEEE.Val.fin 1, im := IEEE.Val.fin 0 } := by
    rw [FFTW.FFT_forward_out, hn, hN]
    simp only [hb, hj, and_self, if_true]
    rw [samples_congr (inp i) impulse (2 ^ log2N) hrow, hdft _ (shiftSrc_lt hj)]
  have hv : (FFTW.FFT_forward (IEEE.ops rnd lg) fftw_one s inp out).2 i j
      = MAX (IEEE.ops rnd lg) ((IEEE.ops rnd lg).mul ((IEEE.ops rnd lg).ofInt 10)
          ((IEEE.ops rnd lg).log10 (IEEE.Val.fin (1 / 2 ^ log2N * (1 / 2 ^ log2N)))))
          ((IEEE.ops rnd lg).ofInt (-100)) := by
    rw [hbin]
    have := dB_one_bin rnd lg (2 ^ log2N) hNz h0 (by push_cast; exact h1)
      (by push_cast; exact h2)
    rw [this]
    push_cast
    rfl
  refine ⟨hv, ?_, ?_⟩
  · intro h3 L V hL hLa hV hVa
    subst h3
    have hb4 := ten_log_eighth_sq
    have e8 : (1 / (2 : ℝ) ^ 3 * (1 / 2 ^ 3)) = 1 / 8 * (1 / 8) := by norm_num
    have hLb := abs_le.mp hLa
    have hVb := abs_le.mp hVa
    have hVlo : -1807 / 100 < V := by linarith [hb4.1, hLb.1, hVb.1]
    have hVhi : V < -1806 / 100 := by linarith [hb4.2, hLb.2, hVb.2]
    have hgt : (-100 : ℝ) < V := by linarith
    refine ⟨?_, hVlo, hVhi⟩
    rw [hv, e8]
    have h18 : ¬ ((1 : ℝ) / 8 * (1 / 8) < 0) := by norm_num
    have h18b : ¬ ((1 : ℝ) / 8 * (1 / 8) = 0) := by norm_num
    simp only [IEEE.ops, IEEE.log10, h18, h18b, if_false, hL, IEEE.mul, Int.cast_ofNat, hV,
      MAX, IEEE.gt]
    simp [hgt]
  · intro hr hl
    have hr2 : rnd = IEEE.Val.fin := funext hr
    have hl2 : lg = fun x => IEEE.Val.fin (Real.logb 10 x) := funext hl
    subst hr2 hl2
    rw [hbin]
    have := dB_unit_bin (2 ^ log2N) hNz 1 0 (by norm_num)
    simp only [IEEE.exact] at this
    rw [this]
    norm_num

/-- Claim C4 at the scenario of the specification, in exact arithmetic: `log2N = 3`,
`batchSize = 1`, the input row `[1,0,0,0,0,0,0,0,0,0,0,0,0,0,0,0]`, the reference DFT.
The raw transform is 1 at every bin; output `[0][5]` is `10*log10((1/8)^2)`, about
`-18.06`, and not the floor. -/
theorem FFT_forward_impulse_witness :
    (∀ k, naiveDFT (IEEE.exact (Real.logb 10)) (twiddle Real.cos Real.sin (2 * Real.pi) 8)
      (samples impulse (2 ^ 3)) k = { re := IEEE.Val.fin 1, im := IEEE.Val.fin 0 }) ∧
    (FFTW.FFT_forward (IEEE.exact (Real.logb 10))
        (naiveDFT (IEEE.exact (Real.logb 10)) (twiddle Real.cos Real.sin (2 * Real.pi) 8))
        ( FFTW.FFT_initialize 3 1 1 2 3
          (FFTW.State.start { re := IEEE.Val.fin 0, im := IEEE.Val.fin 0 }))
        (fun _ => impulse) (fun _ _ => IEEE.Val.fin 0)).2 0 5
      = IEEE.Val.fin (10 * Real.logb 10 ((1 / 8 : ℝ) ^ 2)) ∧
    -1807 / 100 < 10 * Real.logb 10 ((1 / 8 : ℝ) ^ 2) ∧
    10 * Real.logb 10 ((1 / 8 : ℝ) ^ 2) < -1806 / 100 ∧
    (FFTW.FFT_forward (IEEE.exact (Real.logb 10))
        (naiveDFT (IEEE.exact (Real.logb 10)) (twiddle Real.cos Real.sin (2 * Real.pi) 8))
        ( FFTW.FFT_initialize 3 1 1 2 3
          (FFTW.State.start { re := IEEE.Val.fin 0, im := IEEE.Val.fin 0 }))
        (fun _ => impulse) (fun _ _ => IEEE.Val.fin 0)).2 0 5 ≠ IEEE.Val.fin (-100) := by
  have hd : ∀ k, naiveDFT (IEEE.exact (Real.logb 10))
      (twiddle Real.cos Real.sin (2 * Real.pi) 8) (samples impulse (2 ^ 3)) k
      = { re := IEEE.Val.fin 1, im := IEEE.Val.fin 0 } :=
    fun k => naiveDFT_impulse (Real.logb 10) _ (twiddle_real_zero 8)
      (twiddle_fin _ _ _ 8) (2 ^ 3) k (by decide)
  have h := (FFT_forward_impulse IEEE.Val.fin (fun x => IEEE.Val.fin (Real.logb 10 x))
    (naiveDFT (IEEE.exact (Real.logb 10)) (twiddle Real.cos Real.sin (2 * Real.pi) 8))
    ( FFTW.FFT_initialize 3 1 1 2 3
      (FFTW.State.start { re := IEEE.Val.fin 0, im := IEEE.Val.fin 0 }))
    (fun _ => impulse) (fun _ _ => IEEE.Val.fin 0) 3 0 5 (by decide) (by decide) (by decide)
    (fun _ _ => rfl) (fun k _ => hd k) rfl rfl rfl).2.1 rfl
    (Real.logb 10 ((1 / 8 : ℝ) ^ 2)) (10 * Real.logb 10 ((1 / 8 : ℝ) ^ 2))
    (by norm_num) (by norm_num) rfl (by norm_num)
  refine ⟨hd, h.1, h.2.1, h.2.2, ?_⟩
  intro e
  have h5 := h.1.symm.trans e
  have h6 := IEEE.Val.fin.inj h5
  linarith [h.2.1]

/-! ## Scaling the input (C5) -/

/-- Claim C5, as amended: the output moves by `20*log10|c|` up to the rounding errors of
the operations, and by exactly `20*log10|c|` where nothing rounds.

Multiply every input sample of the batch by a constant `c` (FFTW build).  Let output
`j < _N` of row `i < _BATCHSIZE` read the finite raw bin `(a, b)` for the original row and
the finite raw bin `(a2, b2)` for the scaled row, the magnitude of `(a2, b2)` being `|c|`
times that of `(a, b)` within the relative error `τ` (as for the DFT, up to the rounding
of the scaled samples and of the library).  Let each operation that `FFT_forward` performs
on the two bins return a finite value, that is, let none overflow, with a relative error
of at most `u` in the divisions by `_N`, the squares and the sum, an error of at most `ε`
in `log10` and of at most `η` in the product by 10 (`IEEE.dBAccurate`).  Then, if neither
output is the floor `-100`, both outputs are finite, and

  `|out_scaled[i][j] - (out[i][j] + 20*log10|c|)|
      ≤ 20*ε + 2*η - 80*log10(1 - u) - 20*log10(1 - τ)`;

for `u = ε = η = τ = 0` the bound is zero: `out_scaled[i][j] = out[i][j] + 20*log10|c|`. -/
theorem FFT_forward_scale (rnd lg : ℝ → IEEE.Val ℝ) (u ε η τ : ℝ)
    (fftw_one : List (Cplx (IEEE.Val ℝ)) → Nat → Cplx (IEEE.Val ℝ))
    (s : FFTW.State (IEEE.Val ℝ)) (inp out out2 : Rows (IEEE.Val ℝ)) (c a b a2 b2 : ℝ)
    (i j : Nat)
    (hu0 : 0 ≤ u) (hu1 : u < 1) (ht0 : 0 ≤ τ) (ht1 : τ < 1)
    (hi : (i : Int) < s._BATCHSIZE) (hj : j < s._N.toNat)
    (hbin : fftw_one (samples (inp i) s._N.toNat) (shiftSrc s._N.toNat j)
      = { re := IEEE.Val.fin a, im := IEEE.Val.fin b })
    (hbin2 : fftw_one (samples (Rows.scaleMul (IEEE.ops rnd lg) (IEEE.Val.fin c) inp i)
        s._N.toNat) (shiftSrc s._N.toNat j)
      = { re := IEEE.Val.fin a2, im := IEEE.Val.fin b2 })
    (hlo : (1 - τ) ^ 2 * (c ^ 2 * (a ^ 2 + b ^ 2)) ≤ a2 ^ 2 + b2 ^ 2)
    (hhi : a2 ^ 2 + b2 ^ 2 ≤ (1 + τ) ^ 2 * (c ^ 2 * (a ^ 2 + b ^ 2)))
    (hacc : IEEE.dBAccurate rnd lg u ε η s._N a b)
    (hacc2 : IEEE.dBAccurate rnd lg u ε η s._N a2 b2)
    (h1 : (FFTW.FFT_forward (IEEE.ops rnd lg) fftw_one s inp out).2 i j
      ≠ IEEE.Val.fin (-100))
    (h2 : (FFTW.FFT_forward (IEEE.ops rnd lg) fftw_one s
      (Rows.scaleMul (IEEE.ops rnd lg) (IEEE.Val.fin c) inp) out2).2 i j
      ≠ IEEE.Val.fin (-100)) :
    ∃ v v2 : ℝ,
      (FFTW.FFT_forward (IEEE.ops rnd lg) fftw_one s inp out).2 i j = IEEE.Val.fin v ∧
      (FFTW.FFT_forward (IEEE.ops rnd lg) fftw_one s
        (Rows.scaleMul (IEEE.ops rnd lg) (IEEE.Val.fin c) inp) out2).2 i j = IEEE.Val.fin v2 ∧
      |v2 - (v + 20 * Real.logb 10 |c|)|
        ≤ 20 * ε + 2 * η + 80 * (-Real.logb 10 (1 - u)) + 20 * (-Real.logb 10 (1 - τ)) ∧
      (u = 0 → ε = 0 → η = 0 → τ = 0 → v2 = v + 20 * Real.logb 10 |c|) := by
  have hb : i < s._BATCHSIZE.toNat := by omega
  have hNpos : 0 < s._N := by omega
  have hNR : (0 : ℝ) < s._N := by exact_mod_cast hNpos
  have hN2 : (0 : ℝ) < (s._N : ℝ) ^ 2 := pow_pos hNR 2
  rw [FFTW.FFT_forward_out] at h1 h2 ⊢
  rw [FFTW.FFT_forward_out]
  simp only [hb, hj, and_self, if_true] at h1 h2 ⊢
  rw [hbin] at h1 ⊢
  rw [hbin2] at h2 ⊢
  obtain ⟨v, hv, hpos, hvb⟩ := dB_accurate_bound rnd lg u ε η s._N hNpos a b hu0 hu1 hacc h1
  obtain ⟨v2, hv2, hpos2, hvb2⟩ :=
    dB_accurate_bound rnd lg u ε η s._N hNpos a2 b2 hu0 hu1 hacc2 h2
  have hc : c ≠ 0 := by
    intro h0
    rw [h0] at hhi
    have : a2 ^ 2 + b2 ^ 2 ≤ 0 := by simpa using hhi
    linarith
  have hc2 : (0 : ℝ) < c ^ 2 := by positivity
  have hE0 : 0 < (a ^ 2 + b ^ 2) / (s._N : ℝ) ^ 2 := div_pos hpos hN2
  have hE2 : 0 < (a2 ^ 2 + b2 ^ 2) / (s._N : ℝ) ^ 2 := div_pos hpos2 hN2
  have hx : 0 < c ^ 2 * ((a ^ 2 + b ^ 2) / (s._N : ℝ) ^ 2) := mul_pos hc2 hE0
  have l1 : (1 - τ) ^ 2 * (c ^ 2 * ((a ^ 2 + b ^ 2) / (s._N : ℝ) ^ 2))
      ≤ (a2 ^ 2 + b2 ^ 2) / (s._N : ℝ) ^ 2 := by
    have := div_le_div_of_nonneg_right hlo hN2.le
    calc (1 - τ) ^ 2 * (c ^ 2 * ((a ^ 2 + b ^ 2) / (s._N : ℝ) ^ 2))
        = (1 - τ) ^ 2 * (c ^ 2 * (a ^ 2 + b ^ 2)) / (s._N : ℝ) ^ 2 := by ring
      _ ≤ _ := this
  have l2 : (a2 ^ 2 + b2 ^ 2) / (s._N : ℝ) ^ 2
      ≤ (1 + τ) ^ 2 * (c ^ 2 * ((a ^ 2 + b ^ 2) / (s._N : ℝ) ^ 2)) := by
    have := div_le_div_of_nonneg_right hhi hN2.le
    calc (a2 ^ 2 + b2 ^ 2) / (s._N : ℝ) ^ 2
        ≤ (1 + τ) ^ 2 * (c ^ 2 * (a ^ 2 + b ^ 2)) / (s._N : ℝ) ^ 2 := this
      _ = _ := by ring
  have hlog := logb_rel_bound τ _ _ 2 ht0 ht1 hx hE2 l1 l2
  have k2 : ((2 : ℕ) : ℝ) = 2 := by norm_num
  have hsplit : Real.logb 10 (c ^ 2 * ((a ^ 2 + b ^ 2) / (s._N : ℝ) ^ 2))
      = 2 * Real.logb 10 |c| + Real.logb 10 ((a ^ 2 + b ^ 2) / (s._N : ℝ) ^ 2) := by
    rw [Real.logb_mul hc2.ne.symm hE0.ne.symm, ← sq_abs c, Real.logb_pow]
    norm_num
  rw [k2, hsplit] at hlog
  obtain ⟨p1, p2⟩ := abs_le.mp hvb
  obtain ⟨q1, q2⟩ := abs_le.mp hvb2
  obtain ⟨g1, g2⟩ := abs_le.mp hlog
  have hbound : |v2 - (v + 20 * Real.logb 10 |c|)|
      ≤ 20 * ε + 2 * η + 80 * (-Real.logb 10 (1 - u)) + 20 * (-Real.logb 10 (1 - τ)) := by
    rw [abs_le]
    constructor <;> linarith
  refine ⟨v, v2, hv, hv2, hbound, ?_⟩
  intro hu hε hη hτ
  subst hu hε hη hτ
  have hz : |v2 - (v + 20 * Real.logb 10 |c|)| ≤ 0 := by
    simpa using hbound
  have := abs_nonpos_iff.mp hz
  linarith

/-- Claim C5 as amended, twice at the scenario of the specification (`log2N = 3`,
`batchSize = 1`, the impulse row `[1,0,...,0]`, the reference DFT, output `[0][5]`) with
`c = 10`.  First in arithmetic that does not round: all four error bounds are `0`, and the
output moves by exactly `20*log10(10)`.  Then in arithmetic in which every result of an
operation of `FFT.c`, the scaling of the samples included, is off by the relative amount
`2^-24`: the scaled row is `(10*(1 + 2^-24), 0, ..., 0)`, the bounds are `u = τ = 2^-24`,
`ε = 0` and `η = 1e-5`. -/
theorem FFT_forward_scale_witness :
    (∃ v v2 : ℝ,
      (FFTW.FFT_forward (IEEE.ops IEEE.Val.fin (fun x => IEEE.Val.fin (Real.logb 10 x)))
          (naiveDFT (IEEE.ops IEEE.Val.fin (fun x => IEEE.Val.fin (Real.logb 10 x)))
            (twiddle Real.cos Real.sin (2 * Real.pi) 8))
          ( FFTW.FFT_initialize 3 1 1 2 3
            (FFTW.State.start { re := IEEE.Val.fin 0, im := IEEE.Val.fin 0 }))
          (fun _ => impulse)
          (fun _ _ => IEEE.Val.fin 0)).2 0 5 = IEEE.Val.fin v ∧
      (FFTW.FFT_forward (IEEE.ops IEEE.Val.fin (fun x => IEEE.Val.fin (Real.logb 10 x)))
          (naiveDFT (IEEE.ops IEEE.Val.fin (fun x => IEEE.Val.fin (Real.logb 10 x)))
            (twiddle Real.cos Real.sin (2 * Real.pi) 8))
          ( FFTW.FFT_initialize 3 1 1 2 3
            (FFTW.State.start { re := IEEE.Val.fin 0, im := IEEE.Val.fin 0 }))
          (Rows.scaleMul (IEEE.ops IEEE.Val.fin (fun x => IEEE.Val.fin (Real.logb 10 x)))
            (IEEE.Val.fin 10) (fun _ => impulse))
          (fun _ _ => IEEE.Val.fin 0)).2 0 5 = IEEE.Val.fin v2 ∧
      |v2 - (v + 20 * Real.logb 10 |(10 : ℝ)|)|
        ≤ 20 * 0 + 2 * 0 + 80 * (-Real.logb 10 (1 - 0)) + 20 * (-Real.logb 10 (1 - 0)) ∧
      ((0 : ℝ) = 0 → (0 : ℝ) = 0 → (0 : ℝ) = 0 → (0 : ℝ) = 0 →
        v2 = v + 20 * Real.logb 10 |(10 : ℝ)|)) ∧
    (∃ v v2 : ℝ,
      (FFTW.FFT_forward (IEEE.ops (IEEE.rndRel (1 / 2 ^ 24))
          (fun x => IEEE.Val.fin (Real.logb 10 x)))
          (naiveDFT (IEEE.ops IEEE.Val.fin (fun x => IEEE.Val.fin (Real.logb 10 x)))
            (twiddle Real.cos Real.sin (2 * Real.pi) 8))
          ( FFTW.FFT_initialize 3 1 1 2 3
            (FFTW.State.start { re := IEEE.Val.fin 0, im := IEEE.Val.fin 0 }))
          (fun _ => impulse)
          (fun _ _ => IEEE.Val.fin 0)).2 0 5 = IEEE.Val.fin v ∧
      (FFTW.FFT_forward (IEEE.ops (IEEE.rndRel (1 / 2 ^ 24))
          (fun x => IEEE.Val.fin (Real.logb 10 x)))
          (naiveDFT (IEEE.ops IEEE.Val.fin (fun x => IEEE.Val.fin (Real.logb 10 x)))
            (twiddle Real.cos Real.sin (2 * Real.pi) 8))
          ( FFTW.FFT_initialize 3 1 1 2 3
            (FFTW.State.start { re := IEEE.Val.fin 0, im := IEEE.Val.fin 0 }))
          (Rows.scaleMul (IEEE.ops (IEEE.rndRel (1 / 2 ^ 24))
              (fun x => IEEE.Val.fin (Real.logb 10 x)))
            (IEEE.Val.fin 10) (fun _ => impulse))
          (fun _ _ => IEEE.Val.fin 0)).2 0 5 = IEEE.Val.fin v2 ∧
      |v2 - (v + 20 * Real.logb 10 |(10 : ℝ)|)|
        ≤ 20 * 0 + 2 * (1 / 100000) + 80 * (-Real.logb 10 (1 - 1 / 2 ^ 24))
          + 20 * (-Real.logb 10 (1 - 1 / 2 ^ 24)) ∧
      ((1 / 2 ^ 24 : ℝ) = 0 → (0 : ℝ) = 0 → (1 / 100000 : ℝ) = 0 →
        (1 / 2 ^ 24 : ℝ) = 0 →
        v2 = v + 20 * Real.logb 10 |(10 : ℝ)|)) := by
  have hN : ( FFTW.FFT_initialize 3 1 1 2 3
      (FFTW.State.start ({ re := IEEE.Val.fin 0, im := IEEE.Val.fin 0 } :
        Cplx (IEEE.Val ℝ))))._N = 8 := by decide
  have hn : ( FFTW.FFT_initialize 3 1 1 2 3
      (FFTW.State.start ({ re := IEEE.Val.fin 0, im := IEEE.Val.fin 0 } :
        Cplx (IEEE.Val ℝ))))._N.toNat = 8 := by rw [hN]; rfl
  have hB : ( FFTW.FFT_initialize 3 1 1 2 3
      (FFTW.State.start ({ re := IEEE.Val.fin 0, im := IEEE.Val.fin 0 } :
        Cplx (IEEE.Val ℝ))))._BATCHSIZE.toNat = 1 := rfl
  have hlt : (0 : ℕ) < 1 ∧ 5 < 8 := by decide
  have d1 : ∀ k, naiveDFT (IEEE.ops IEEE.Val.fin (fun x => IEEE.Val.fin (Real.logb 10 x)))
      (twiddle Real.cos Real.sin (2 * Real.pi) 8) (samples impulse 8) k
      = { re := IEEE.Val.fin 1, im := IEEE.Val.fin 0 } :=
    fun k => naiveDFT_spike _ _ 1 rfl rfl _ (twiddle_real_zero 8) (twiddle_fin _ _ _ 8)
      impulse (by simp [impulse]) (fun m hm => by simp [impulse, Nat.pos_iff_ne_zero.mp hm])
      8 k (by decide)
  have d2 : ∀ k, naiveDFT (IEEE.ops IEEE.Val.fin (fun x => IEEE.Val.fin (Real.logb 10 x)))
      (twiddle Real.cos Real.sin (2 * Real.pi) 8) 
      (samples (Rows.scaleMul (IEEE.ops IEEE.Val.fin (fun x => IEEE.Val.fin (Real.logb 10 x)))
        (IEEE.Val.fin 10) (fun _ => impulse) 0) 8) k
      = { re := IEEE.Val.fin 10, im := IEEE.Val.fin 0 } :=
    fun k => naiveDFT_spike _ _ 10 rfl rfl _ (twiddle_real_zero 8) (twiddle_fin _ _ _ 8)
      _ (by simp [Rows.scaleMul, impulse, IEEE.ops, IEEE.mul])
      (fun m hm => by
        simp [Rows.scaleMul, impulse, IEEE.ops, IEEE.mul, Nat.pos_iff_ne_zero.mp hm])
      8 k (by decide)
  have d3 : ∀ k, naiveDFT (IEEE.ops IEEE.Val.fin (fun x => IEEE.Val.fin (Real.logb 10 x)))
      (twiddle Real.cos Real.sin (2 * Real.pi) 8) 
      (samples (Rows.scaleMul (IEEE.ops (IEEE.rndRel (1 / 2 ^ 24))
          (fun x => IEEE.Val.fin (Real.logb 10 x)))
        (IEEE.Val.fin 10) (fun _ => impulse) 0) 8) k
      = { re := IEEE.Val.fin (10 * (1 + 1 / 2 ^ 24)), im := IEEE.Val.fin 0 } :=
    fun k => naiveDFT_spike _ _ (10 * (1 + 1 / 2 ^ 24)) rfl rfl _
      (twiddle_real_zero 8) (twiddle_fin _ _ _ 8)
      _ (by simp [Rows.scaleMul, impulse, IEEE.ops, IEEE.mul, IEEE.rndRel])
      (fun m hm => by
        simp [Rows.scaleMul, impulse, IEEE.ops, IEEE.mul, IEEE.rndRel, Nat.pos_iff_ne_zero.mp hm])
      8 k (by decide)
  have he : (0 : ℝ) ≤ 1 / 2 ^ 24 := by positivity
  constructor
  · have h1 : dB (IEEE.ops IEEE.Val.fin (fun x => IEEE.Val.fin (Real.logb 10 x))) 8
        { re := IEEE.Val.fin 1, im := IEEE.Val.fin 0 } ≠ IEEE.Val.fin (-100) := by
      refine IEEE.dB_not_floor _ _ 8 (by decide) 1 0 _ _ _ _ _ _ _ rfl rfl rfl rfl rfl rfl rfl
        (by norm_num) ?_
      have := logb_ten_ge_neg_two (1 / ((8 : ℤ) : ℝ) * (1 / ((8 : ℤ) : ℝ))
        + 0 / ((8 : ℤ) : ℝ) * (0 / ((8 : ℤ) : ℝ))) (by norm_num)
      linarith
    have h2 : dB (IEEE.ops IEEE.Val.fin (fun x => IEEE.Val.fin (Real.logb 10 x))) 8
        { re := IEEE.Val.fin 10, im := IEEE.Val.fin 0 } ≠ IEEE.Val.fin (-100) := by
      refine IEEE.dB_not_floor _ _ 8 (by decide) 10 0 _ _ _ _ _ _ _ rfl rfl rfl rfl rfl rfl rfl
        (by norm_num) ?_
      have := logb_ten_ge_neg_two (10 / ((8 : ℤ) : ℝ) * (10 / ((8 : ℤ) : ℝ))
        + 0 / ((8 : ℤ) : ℝ) * (0 / ((8 : ℤ) : ℝ))) (by norm_num)
      linarith
    exact FFT_forward_scale IEEE.Val.fin (fun x => IEEE.Val.fin (Real.logb 10 x)) 0 0 0 0
      (naiveDFT (IEEE.ops IEEE.Val.fin (fun x => IEEE.Val.fin (Real.logb 10 x)))
        (twiddle Real.cos Real.sin (2 * Real.pi) 8))
      ( FFTW.FFT_initialize 3 1 1 2 3
        (FFTW.State.start { re := IEEE.Val.fin 0, im := IEEE.Val.fin 0 }))
      (fun _ => impulse) (fun _ _ => IEEE.Val.fin 0) (fun _ _ => IEEE.Val.fin 0)
      10 1 0 10 0 0 5 le_rfl one_pos le_rfl one_pos (by decide) (by rw [hn]; decide)
      (by rw [hn]; exact d1 _) (by rw [hn]; exact d2 _) (by norm_num) (by norm_num)
      (dBAccurate_exact _ 1 0) (dBAccurate_exact _ 10 0)
      (by rw [FFTW.FFT_forward_out, hn, hB, hN]
          simp only [hlt.1, hlt.2, and_self, if_true, d1]
          exact h1)
      (by rw [FFTW.FFT_forward_out, hn, hB, hN]
          simp only [hlt.1, hlt.2, and_self, if_true, d2]
          exact h2)
  · have b1 := logb_ten_ge_neg_two
      ((1 / ((8 : ℤ) : ℝ) * (1 + 1 / 2 ^ 24) * (1 / ((8 : ℤ) : ℝ) * (1 + 1 / 2 ^ 24))
          * (1 + 1 / 2 ^ 24)
        + 0 / ((8 : ℤ) : ℝ) * (1 + 1 / 2 ^ 24) * (0 / ((8 : ℤ) : ℝ) * (1 + 1 / 2 ^ 24))
          * (1 + 1 / 2 ^ 24)) * (1 + 1 / 2 ^ 24)) (by norm_num)
    have b2 := logb_ten_le_one
      ((1 / ((8 : ℤ) : ℝ) * (1 + 1 / 2 ^ 24) * (1 / ((8 : ℤ) : ℝ) * (1 + 1 / 2 ^ 24))
          * (1 + 1 / 2 ^ 24)
        + 0 / ((8 : ℤ) : ℝ) * (1 + 1 / 2 ^ 24) * (0 / ((8 : ℤ) : ℝ) * (1 + 1 / 2 ^ 24))
          * (1 + 1 / 2 ^ 24)) * (1 + 1 / 2 ^ 24)) (by norm_num) (by norm_num)
    have b3 := logb_ten_ge_neg_two
      ((10 * (1 + 1 / 2 ^ 24) / ((8 : ℤ) : ℝ) * (1 + 1 / 2 ^ 24)
          * (10 * (1 + 1 / 2 ^ 24) / ((8 : ℤ) : ℝ) * (1 + 1 / 2 ^ 24)) * (1 + 1 / 2 ^ 24)
        + 0 / ((8 : ℤ) : ℝ) * (1 + 1 / 2 ^ 24) * (0 / ((8 : ℤ) : ℝ) * (1 + 1 / 2 ^ 24))
          * (1 + 1 / 2 ^ 24)) * (1 + 1 / 2 ^ 24)) (by norm_num)
    have b4 := logb_ten_le_one
      ((10 * (1 + 1 / 2 ^ 24) / ((8 : ℤ) : ℝ) * (1 + 1 / 2 ^ 24)
          * (10 * (1 + 1 / 2 ^ 24) / ((8 : ℤ) : ℝ) * (1 + 1 / 2 ^ 24)) * (1 + 1 / 2 ^ 24)
        + 0 / ((8 : ℤ) : ℝ) * (1 + 1 / 2 ^ 24) * (0 / ((8 : ℤ) : ℝ) * (1 + 1 / 2 ^ 24))
          * (1 + 1 / 2 ^ 24)) * (1 + 1 / 2 ^ 24)) (by norm_num) (by norm_num)
    have hacc : IEEE.dBAccurate (IEEE.rndRel (1 / 2 ^ 24))
        (fun x => IEEE.Val.fin (Real.logb 10 x)) (1 / 2 ^ 24) 0 (1 / 100000) 8 1 0 := by
      refine dBAccurate_rel (1 / 2 ^ 24) (1 / 100000) he 8 1 0 ?_
      have habs : |10 * Real.logb 10
          ((1 / ((8 : ℤ) : ℝ) * (1 + 1 / 2 ^ 24) * (1 / ((8 : ℤ) : ℝ) * (1 + 1 / 2 ^ 24))
          * (1 + 1 / 2 ^ 24)
        + 0 / ((8 : ℤ) : ℝ) * (1 + 1 / 2 ^ 24) * (0 / ((8 : ℤ) : ℝ) * (1 + 1 / 2 ^ 24))
          * (1 + 1 / 2 ^ 24)) * (1 + 1 / 2 ^ 24))| ≤ 20 := by
        rw [abs_le]; constructor <;> linarith
      calc (1 / 2 ^ 24 : ℝ) * _ ≤ 1 / 2 ^ 24 * 20 := mul_le_mul_of_nonneg_left habs he
        _ ≤ 1 / 100000 := by norm_num
    have hacc2 : IEEE.dBAccurate (IEEE.rndRel (1 / 2 ^ 24))
        (fun x => IEEE.Val.fin (Real.logb 10 x)) (1 / 2 ^ 24) 0 (1 / 100000) 8
        (10 * (1 + 1 / 2 ^ 24)) 0 := by
      refine dBAccurate_rel (1 / 2 ^ 24) (1 / 100000) he 8 (10 * (1 + 1 / 2 ^ 24)) 0 ?_
      have habs : |10 * Real.logb 10
          ((10 * (1 + 1 / 2 ^ 24) / ((8 : ℤ) : ℝ) * (1 + 1 / 2 ^ 24)
          * (10 * (1 + 1 / 2 ^ 24) / ((8 : ℤ) : ℝ) * (1 + 1 / 2 ^ 24)) * (1 + 1 / 2 ^ 24)
        + 0 / ((8 : ℤ) : ℝ) * (1 + 1 / 2 ^ 24) * (0 / ((8 : ℤ) : ℝ) * (1 + 1 / 2 ^ 24))
          * (1 + 1 / 2 ^ 24)) * (1 + 1 / 2 ^ 24))| ≤ 20 := by
        rw [abs_le]; constructor <;> linarith
      calc (1 / 2 ^ 24 : ℝ) * _ ≤ 1 / 2 ^ 24 * 20 := mul_le_mul_of_nonneg_left habs he
        _ ≤ 1 / 100000 := by norm_num
    have h1 : dB (IEEE.ops (IEEE.rndRel (1 / 2 ^ 24)) (fun x => IEEE.Val.fin (Real.logb 10 x))) 8
        { re := IEEE.Val.fin 1, im := IEEE.Val.fin 0 } ≠ IEEE.Val.fin (-100) := by
      refine IEEE.dB_not_floor _ _ 8 (by decide) 1 0 _ _ _ _ _ _ _ rfl rfl rfl rfl rfl rfl rfl
        (by norm_num) ?_
      nlinarith
    have h2 : dB (IEEE.ops (IEEE.rndRel (1 / 2 ^ 24)) (fun x => IEEE.Val.fin (Real.logb 10 x))) 8
        { re := IEEE.Val.fin (10 * (1 + 1 / 2 ^ 24)), im := IEEE.Val.fin 0 }
        ≠ IEEE.Val.fin (-100) := by
      refine IEEE.dB_not_floor _ _ 8 (by decide) (10 * (1 + 1 / 2 ^ 24)) 0 _ _ _ _ _ _ _
        rfl rfl rfl rfl rfl rfl rfl (by norm_num) ?_
      nlinarith
    exact FFT_forward_scale (IEEE.rndRel (1 / 2 ^ 24))
      (fun x => IEEE.Val.fin (Real.logb 10 x))
      (1 / 2 ^ 24) 0 (1 / 100000) (1 / 2 ^ 24)
      (naiveDFT (IEEE.ops IEEE.Val.fin (fun x => IEEE.Val.fin (Real.logb 10 x)))
        (twiddle Real.cos Real.sin (2 * Real.pi) 8))
      ( FFTW.FFT_initialize 3 1 1 2 3
        (FFTW.State.start { re := IEEE.Val.fin 0, im := IEEE.Val.fin 0 }))
      (fun _ => impulse) (fun _ _ => IEEE.Val.fin 0) (fun _ _ => IEEE.Val.fin 0)
      10 1 0 (10 * (1 + 1 / 2 ^ 24)) 0 0 5 he (by norm_num) he (by norm_num) (by decide)
      (by rw [hn]; decide)
      (by rw [hn]; exact d1 _) (by rw [hn]; exact d3 _) (by norm_num) (by norm_num)
      (by rw [hN]; exact hacc) (by rw [hN]; exact hacc2)
      (by rw [FFTW.FFT_forward_out, hn, hB, hN]
          simp only [hlt.1, hlt.2, and_self, if_true, d1]
          exact h1)
      (by rw [FFTW.FFT_forward_out, hn, hB, hN]
          simp only [hlt.1, hlt.2, and_self, if_true, d3]
          exact h2)

/-- Counterexample to claim C5 as stated: an operation of the scaled run overflows.
`FFT_initialize(3, 1)`, the impulse row `[1,0,...,0]` and `c = 10^30`, in arithmetic that
keeps every result below `2^128` in magnitude and overflows to an infinity from there on.
The original output `[0][5]` is `10*log10((1/8)^2)`, about `-18.06`, and not the floor.
For the scaled row `[10^30,0,...,0]` every raw bin is `(10^30, 0)`, `re = 10^30/8`, and
`re*re` is beyond `2^128`: it overflows to `+inf`, so do `log10` of it and the product by
10, and `MAX(+inf, -100)` is `+inf`.  The scaled output is `+inf`: not the floor, and not
the original output plus `20*log10(10^30) = 600`, which is the finite value about
`581.94`. -/
theorem FFT_forward_scale_overflow :
    (FFTW.FFT_forward (IEEE.ops (IEEE.rndOverflow (2 ^ 128))
        (fun x => IEEE.Val.fin (Real.logb 10 x)))
        (naiveDFT (IEEE.ops (IEEE.rndOverflow (2 ^ 128)) (fun x => IEEE.Val.fin (Real.logb 10 x)))
          (twiddle Real.cos Real.sin (2 * Real.pi) 8))
        ( FFTW.FFT_initialize 3 1 1 2 3
          (FFTW.State.start { re := IEEE.Val.fin 0, im := IEEE.Val.fin 0 }))
        (fun _ => impulse)
        (fun _ _ => IEEE.Val.fin 0)).2 0 5
      = IEEE.Val.fin (10 * Real.logb 10 ((1 / 8 : ℝ) ^ 2)) ∧
    -100 < 10 * Real.logb 10 ((1 / 8 : ℝ) ^ 2) ∧
    (FFTW.FFT_forward (IEEE.ops (IEEE.rndOverflow (2 ^ 128))
        (fun x => IEEE.Val.fin (Real.logb 10 x)))
        (naiveDFT (IEEE.ops (IEEE.rndOverflow (2 ^ 128)) (fun x => IEEE.Val.fin (Real.logb 10 x)))
          (twiddle Real.cos Real.sin (2 * Real.pi) 8))
        ( FFTW.FFT_initialize 3 1 1 2 3
          (FFTW.State.start { re := IEEE.Val.fin 0, im := IEEE.Val.fin 0 }))
        (Rows.scaleMul (IEEE.ops (IEEE.rndOverflow (2 ^ 128))
            (fun x => IEEE.Val.fin (Real.logb 10 x)))
          (IEEE.Val.fin (10 ^ 30)) (fun _ => impulse))
        (fun _ _ => IEEE.Val.fin 0)).2 0 5
      = IEEE.Val.pinf ∧
    (IEEE.ops (IEEE.rndOverflow (2 ^ 128)) (fun x => IEEE.Val.fin (Real.logb 10 x))).add
        (IEEE.Val.fin (10 * Real.logb 10 ((1 / 8 : ℝ) ^ 2)))
        (IEEE.Val.fin (20 * Real.logb 10 |(10 : ℝ) ^ 30|))
      = IEEE.Val.fin (10 * Real.logb 10 ((1 / 8 : ℝ) ^ 2) + 600) ∧
    (FFTW.FFT_forward (IEEE.ops (IEEE.rndOverflow (2 ^ 128))
        (fun x => IEEE.Val.fin (Real.logb 10 x)))
        (naiveDFT (IEEE.ops (IEEE.rndOverflow (2 ^ 128)) (fun x => IEEE.Val.fin (Real.logb 10 x)))
          (twiddle Real.cos Real.sin (2 * Real.pi) 8))
        ( FFTW.FFT_initialize 3 1 1 2 3
          (FFTW.State.start { re := IEEE.Val.fin 0, im := IEEE.Val.fin 0 }))
        (Rows.scaleMul (IEEE.ops (IEEE.rndOverflow (2 ^ 128))
            (fun x => IEEE.Val.fin (Real.logb 10 x)))
          (IEEE.Val.fin (10 ^ 30)) (fun _ => impulse))
        (fun _ _ => IEEE.Val.fin 0)).2 0 5
      ≠ (IEEE.ops (IEEE.rndOverflow (2 ^ 128)) (fun x => IEEE.Val.fin (Real.logb 10 x))).add
        ((FFTW.FFT_forward (IEEE.ops (IEEE.rndOverflow (2 ^ 128))
            (fun x => IEEE.Val.fin (Real.logb 10 x)))
          (naiveDFT (IEEE.ops (IEEE.rndOverflow (2 ^ 128)) (fun x => IEEE.Val.fin (Real.logb 10 x)))
            (twiddle Real.cos Real.sin (2 * Real.pi) 8))
          ( FFTW.FFT_initialize 3 1 1 2 3
            (FFTW.State.start { re := IEEE.Val.fin 0, im := IEEE.Val.fin 0 }))
          (fun _ => impulse)
          (fun _ _ => IEEE.Val.fin 0)).2 0 5)
        (IEEE.Val.fin (20 * Real.logb 10 |(10 : ℝ) ^ 30|)) := by
  have hN : ( FFTW.FFT_initialize 3 1 1 2 3
      (FFTW.State.start ({ re := IEEE.Val.fin 0, im := IEEE.Val.fin 0 } :
        Cplx (IEEE.Val ℝ))))._N = 8 := by decide
  have hn : ( FFTW.FFT_initialize 3 1 1 2 3
      (FFTW.State.start ({ re := IEEE.Val.fin 0, im := IEEE.Val.fin 0 } :
        Cplx (IEEE.Val ℝ))))._N.toNat = 8 := by rw [hN]; rfl
  have hB : ( FFTW.FFT_initialize 3 1 1 2 3
      (FFTW.State.start ({ re := IEEE.Val.fin 0, im := IEEE.Val.fin 0 } :
        Cplx (IEEE.Val ℝ))))._BATCHSIZE.toNat = 1 := rfl
  have hlt : (0 : ℕ) < 1 ∧ 5 < 8 := by decide
  have hbig : (0 : ℝ) < 2 ^ 128 := by positivity
  have r0 : IEEE.rndOverflow ((2 : ℝ) ^ 128) 0 = IEEE.Val.fin 0 :=
    IEEE.rndOverflow_fin _ _ (by rw [abs_zero]; exact hbig)
  have r1 : IEEE.rndOverflow ((2 : ℝ) ^ 128) 1 = IEEE.Val.fin 1 :=
    IEEE.rndOverflow_fin _ _ (by rw [abs_one]; norm_num)
  have rc : IEEE.rndOverflow ((2 : ℝ) ^ 128) (10 ^ 30) = IEEE.Val.fin (10 ^ 30) :=
    IEEE.rndOverflow_fin _ _ (by rw [abs_of_pos (by positivity)]; norm_num)
  have d1 : ∀ k, naiveDFT (IEEE.ops (IEEE.rndOverflow (2 ^ 128))
      (fun x => IEEE.Val.fin (Real.logb 10 x)))
      (twiddle Real.cos Real.sin (2 * Real.pi) 8) (samples impulse 8) k
      = { re := IEEE.Val.fin 1, im := IEEE.Val.fin 0 } :=
    fun k => naiveDFT_spike _ _ 1 r0 r1 _ (twiddle_real_zero 8) (twiddle_fin _ _ _ 8)
      impulse (by simp [impulse]) (fun m hm => by simp [impulse, Nat.pos_iff_ne_zero.mp hm])
      8 k (by decide)
  have d2 : ∀ k, naiveDFT (IEEE.ops (IEEE.rndOverflow (2 ^ 128))
      (fun x => IEEE.Val.fin (Real.logb 10 x)))
      (twiddle Real.cos Real.sin (2 * Real.pi) 8) 
      (samples (Rows.scaleMul (IEEE.ops (IEEE.rndOverflow (2 ^ 128))
          (fun x => IEEE.Val.fin (Real.logb 10 x)))
        (IEEE.Val.fin (10 ^ 30)) (fun _ => impulse) 0) 8) k
      = { re := IEEE.Val.fin (10 ^ 30), im := IEEE.Val.fin 0 } :=
    fun k => naiveDFT_spike _ _ (10 ^ 30) r0 rc _ (twiddle_real_zero 8) (twiddle_fin _ _ _ 8)
      _ (by simp [Rows.scaleMul, impulse, IEEE.ops, IEEE.mul, r0, rc])
      (fun m hm => by
        simp [Rows.scaleMul, impulse, IEEE.ops, IEEE.mul, r0, rc, Nat.pos_iff_ne_zero.mp hm])
      8 k (by decide)
  have hb := ten_log_eighth_sq
  have hE : (1 / 8 * (1 / 8) + 0 : ℝ) = (1 / 8 : ℝ) ^ 2 := by norm_num
  have hgt : (-100 : ℝ) < 10 * Real.logb 10 ((1 / 8 : ℝ) ^ 2) := by linarith [hb.1]
  have horig : (FFTW.FFT_forward (IEEE.ops (IEEE.rndOverflow (2 ^ 128))
      (fun x => IEEE.Val.fin (Real.logb 10 x)))
        (naiveDFT (IEEE.ops (IEEE.rndOverflow (2 ^ 128)) (fun x => IEEE.Val.fin (Real.logb 10 x)))
          (twiddle Real.cos Real.sin (2 * Real.pi) 8))
        ( FFTW.FFT_initialize 3 1 1 2 3
          (FFTW.State.start { re := IEEE.Val.fin 0, im := IEEE.Val.fin 0 }))
        (fun _ => impulse)
        (fun _ _ => IEEE.Val.fin 0)).2 0 5
      = IEEE.Val.fin (10 * Real.logb 10 ((1 / 8 : ℝ) ^ 2)) := by
    rw [FFTW.FFT_forward_out, hn, hB, hN]
    simp only [hlt.1, hlt.2, and_self, if_true, d1]
    have hP : |10 * Real.logb 10 (1 / 8 * (1 / 8) + 0 : ℝ)| < 2 ^ 128 := by
      rw [hE, abs_lt]
      constructor
      · have : (-(2 : ℝ) ^ 128) < -18062 / 1000 := by norm_num
        linarith [hb.1]
      · have : (-18061 / 1000 : ℝ) < 2 ^ 128 := by norm_num
        linarith [hb.2]
    rw [IEEE.dB_of_roundings _ _ 8 (by decide) 1 0 (1 / 8) 0 (1 / 8 * (1 / 8)) 0
      (1 / 8 * (1 / 8) + 0) (Real.logb 10 (1 / 8 * (1 / 8) + 0))
      (10 * Real.logb 10 (1 / 8 * (1 / 8) + 0))
      (by rw [IEEE.rndOverflow_fin _ _ (by rw [abs_of_pos (by norm_num)]; norm_num)]; norm_num)
      (by rw [IEEE.rndOverflow_fin _ _ (by simp)]; norm_num)
      (IEEE.rndOverflow_fin _ _ (by rw [abs_of_pos (by norm_num)]; norm_num))
      (by rw [IEEE.rndOverflow_fin _ _ (by simp)]; norm_num)
      (IEEE.rndOverflow_fin _ _ (by rw [abs_of_pos (by norm_num)]; norm_num))
      rfl (IEEE.rndOverflow_fin _ _ hP)]
    rw [hE, if_pos (And.intro (by norm_num : (0 : ℝ) < (1 / 8) ^ 2) hgt)]
  have hscaled : (FFTW.FFT_forward (IEEE.ops (IEEE.rndOverflow (2 ^ 128))
      (fun x => IEEE.Val.fin (Real.logb 10 x)))
        (naiveDFT (IEEE.ops (IEEE.rndOverflow (2 ^ 128)) (fun x => IEEE.Val.fin (Real.logb 10 x)))
          (twiddle Real.cos Real.sin (2 * Real.pi) 8))
        ( FFTW.FFT_initialize 3 1 1 2 3
          (FFTW.State.start { re := IEEE.Val.fin 0, im := IEEE.Val.fin 0 }))
        (Rows.scaleMul (IEEE.ops (IEEE.rndOverflow (2 ^ 128))
            (fun x => IEEE.Val.fin (Real.logb 10 x)))
          (IEEE.Val.fin (10 ^ 30)) (fun _ => impulse))
        (fun _ _ => IEEE.Val.fin 0)).2 0 5
      = IEEE.Val.pinf := by
    rw [FFTW.FFT_forward_out, hn, hB, hN]
    simp only [hlt.1, hlt.2, and_self, if_true, d2]
    have q1 : IEEE.rndOverflow ((2 : ℝ) ^ 128) (10 ^ 30 / 8) = IEEE.Val.fin (10 ^ 30 / 8) :=
      IEEE.rndOverflow_fin _ _ (by rw [abs_of_pos (by positivity)]; norm_num)
    have q2 : IEEE.rndOverflow ((2 : ℝ) ^ 128) (10 ^ 30 / 8 * (10 ^ 30 / 8))
        = IEEE.Val.pinf :=
      IEEE.rndOverflow_pinf _ _ hbig (by norm_num)
    have h10 : ¬ (10 : ℝ) = 0 := by norm_num
    simp [dB, MAX, IEEE.ops, IEEE.div, IEEE.mul, IEEE.add, IEEE.log10, IEEE.gt, IEEE.inf,
      q1, q2, r0, h10]
  have hc : 20 * Real.logb 10 |(10 : ℝ) ^ 30| = 600 := by
    rw [abs_of_pos (by positivity), Real.logb_pow, Real.logb_self_eq_one (by norm_num)]
    norm_num
  have hadd : (IEEE.ops (IEEE.rndOverflow (2 ^ 128)) (fun x => IEEE.Val.fin (Real.logb 10 x))).add
        (IEEE.Val.fin (10 * Real.logb 10 ((1 / 8 : ℝ) ^ 2)))
        (IEEE.Val.fin (20 * Real.logb 10 |(10 : ℝ) ^ 30|))
      = IEEE.Val.fin (10 * Real.logb 10 ((1 / 8 : ℝ) ^ 2) + 600) := by
    rw [hc]
    show IEEE.rndOverflow ((2 : ℝ) ^ 128) (10 * Real.logb 10 ((1 / 8 : ℝ) ^ 2) + 600) = _
    apply IEEE.rndOverflow_fin
    rw [abs_lt]
    constructor
    · have : (-(2 : ℝ) ^ 128) < -18062 / 1000 + 600 := by norm_num
      linarith [hb.1]
    · have : (-18061 / 1000 + 600 : ℝ) < 2 ^ 128 := by norm_num
      linarith [hb.2]
  refine ⟨horig, hgt, hscaled, hadd, ?_⟩
  rw [hscaled, horig, hadd]
  simp

/-- Rounding alone moves the output by more than `20*log10|c|`.  At the scenario of the
specification with `c = 10`, in arithmetic in which every result of an operation of `FFT.c`
is off by the relative amount `2^-24`, nothing overflows, neither output `[0][5]` is the
floor, and the scaled output exceeds the original output by more than `20*log10(10)`. -/
theorem scale_rounding_inexact :
    ∃ v v2 : ℝ,
      (FFTW.FFT_forward (IEEE.ops (IEEE.rndRel (1 / 2 ^ 24))
          (fun x => IEEE.Val.fin (Real.logb 10 x)))
          (naiveDFT (IEEE.ops IEEE.Val.fin (fun x => IEEE.Val.fin (Real.logb 10 x)))
            (twiddle Real.cos Real.sin (2 * Real.pi) 8))
          ( FFTW.FFT_initialize 3 1 1 2 3
            (FFTW.State.start { re := IEEE.Val.fin 0, im := IEEE.Val.fin 0 }))
          (fun _ => impulse)
          (fun _ _ => IEEE.Val.fin 0)).2 0 5 = IEEE.Val.fin v ∧
      (FFTW.FFT_forward (IEEE.ops (IEEE.rndRel (1 / 2 ^ 24))
          (fun x => IEEE.Val.fin (Real.logb 10 x)))
          (naiveDFT (IEEE.ops IEEE.Val.fin (fun x => IEEE.Val.fin (Real.logb 10 x)))
            (twiddle Real.cos Real.sin (2 * Real.pi) 8))
          ( FFTW.FFT_initialize 3 1 1 2 3
            (FFTW.State.start { re := IEEE.Val.fin 0, im := IEEE.Val.fin 0 }))
          (Rows.scaleMul (IEEE.ops (IEEE.rndRel (1 / 2 ^ 24))
              (fun x => IEEE.Val.fin (Real.logb 10 x)))
            (IEEE.Val.fin 10) (fun _ => impulse))
          (fun _ _ => IEEE.Val.fin 0)).2 0 5 = IEEE.Val.fin v2 ∧
      -100 < v ∧ -100 < v2 ∧ v + 20 * Real.logb 10 |(10 : ℝ)| < v2 := by
  have hN : ( FFTW.FFT_initialize 3 1 1 2 3
      (FFTW.State.start ({ re := IEEE.Val.fin 0, im := IEEE.Val.fin 0 } :
        Cplx (IEEE.Val ℝ))))._N = 8 := by decide
  have hn : ( FFTW.FFT_initialize 3 1 1 2 3
      (FFTW.State.start ({ re := IEEE.Val.fin 0, im := IEEE.Val.fin 0 } :
        Cplx (IEEE.Val ℝ))))._N.toNat = 8 := by rw [hN]; rfl
  have hB : ( FFTW.FFT_initialize 3 1 1 2 3
      (FFTW.State.start ({ re := IEEE.Val.fin 0, im := IEEE.Val.fin 0 } :
        Cplx (IEEE.Val ℝ))))._BATCHSIZE.toNat = 1 := rfl
  have hlt : (0 : ℕ) < 1 ∧ 5 < 8 := by decide
  have d1 : ∀ k, naiveDFT (IEEE.ops IEEE.Val.fin (fun x => IEEE.Val.fin (Real.logb 10 x)))
      (twiddle Real.cos Real.sin (2 * Real.pi) 8) (samples impulse 8) k
      = { re := IEEE.Val.fin 1, im := IEEE.Val.fin 0 } :=
    fun k => naiveDFT_spike _ _ 1 rfl rfl _ (twiddle_real_zero 8) (twiddle_fin _ _ _ 8)
      impulse (by simp [impulse]) (fun m hm => by simp [impulse, Nat.pos_iff_ne_zero.mp hm])
      8 k (by decide)
  have d3 : ∀ k, naiveDFT (IEEE.ops IEEE.Val.fin (fun x => IEEE.Val.fin (Real.logb 10 x)))
      (twiddle Real.cos Real.sin (2 * Real.pi) 8)
      (samples (Rows.scaleMul (IEEE.ops (IEEE.rndRel (1 / 2 ^ 24))
          (fun x => IEEE.Val.fin (Real.logb 10 x)))
        (IEEE.Val.fin 10) (fun _ => impulse) 0) 8) k
      = { re := IEEE.Val.fin (10 * (1 + 1 / 2 ^ 24)), im := IEEE.Val.fin 0 } :=
    fun k => naiveDFT_spike _ _ (10 * (1 + 1 / 2 ^ 24)) rfl rfl _
      (twiddle_real_zero 8) (twiddle_fin _ _ _ 8)
      _ (by simp [Rows.scaleMul, impulse, IEEE.ops, IEEE.mul, IEEE.rndRel])
      (fun m hm => by
        simp [Rows.scaleMul, impulse, IEEE.ops, IEEE.mul, IEEE.rndRel,
          Nat.pos_iff_ne_zero.mp hm])
      8 k (by decide)
  have c8 : ((8 : ℤ) : ℝ) = 8 := by norm_num
  have b1 := logb_ten_ge_neg_two
      ((1 / 8 * (1 + 1 / 2 ^ 24) * (1 / 8 * (1 + 1 / 2 ^ 24)) * (1 + 1 / 2 ^ 24)
        + 0 / 8 * (1 + 1 / 2 ^ 24) * (0 / 8 * (1 + 1 / 2 ^ 24)) * (1 + 1 / 2 ^ 24))
        * (1 + 1 / 2 ^ 24)) (by norm_num)
  have hpos1 : (0 : ℝ) <
      ((1 / 8 * (1 + 1 / 2 ^ 24) * (1 / 8 * (1 + 1 / 2 ^ 24)) * (1 + 1 / 2 ^ 24)
        + 0 / 8 * (1 + 1 / 2 ^ 24) * (0 / 8 * (1 + 1 / 2 ^ 24)) * (1 + 1 / 2 ^ 24))
        * (1 + 1 / 2 ^ 24)) := by norm_num
  have hgt : (100 : ℝ) *
      ((1 / 8 * (1 + 1 / 2 ^ 24) * (1 / 8 * (1 + 1 / 2 ^ 24)) * (1 + 1 / 2 ^ 24)
        + 0 / 8 * (1 + 1 / 2 ^ 24) * (0 / 8 * (1 + 1 / 2 ^ 24)) * (1 + 1 / 2 ^ 24))
        * (1 + 1 / 2 ^ 24))
      < ((10 * (1 + 1 / 2 ^ 24) / 8 * (1 + 1 / 2 ^ 24)
          * (10 * (1 + 1 / 2 ^ 24) / 8 * (1 + 1 / 2 ^ 24)) * (1 + 1 / 2 ^ 24)
        + 0 / 8 * (1 + 1 / 2 ^ 24) * (0 / 8 * (1 + 1 / 2 ^ 24)) * (1 + 1 / 2 ^ 24))
        * (1 + 1 / 2 ^ 24)) := by norm_num
  have hL : Real.logb 10 ((100 : ℝ) *
      ((1 / 8 * (1 + 1 / 2 ^ 24) * (1 / 8 * (1 + 1 / 2 ^ 24)) * (1 + 1 / 2 ^ 24)
        + 0 / 8 * (1 + 1 / 2 ^ 24) * (0 / 8 * (1 + 1 / 2 ^ 24)) * (1 + 1 / 2 ^ 24))
        * (1 + 1 / 2 ^ 24)))
      < Real.logb 10 ((10 * (1 + 1 / 2 ^ 24) / 8 * (1 + 1 / 2 ^ 24)
          * (10 * (1 + 1 / 2 ^ 24) / 8 * (1 + 1 / 2 ^ 24)) * (1 + 1 / 2 ^ 24)
        + 0 / 8 * (1 + 1 / 2 ^ 24) * (0 / 8 * (1 + 1 / 2 ^ 24)) * (1 + 1 / 2 ^ 24))
        * (1 + 1 / 2 ^ 24)) :=
    Real.logb_lt_logb (by norm_num) (by norm_num) hgt
  have h100 : Real.logb 10 (100 : ℝ) = 2 := by
    have e : (100 : ℝ) = (10 : ℝ) ^ 2 := by norm_num
    rw [e, Real.logb_pow, Real.logb_self_eq_one (by norm_num)]
    norm_num
  rw [Real.logb_mul (by norm_num) hpos1.ne.symm, h100] at hL
  have h10 : Real.logb 10 |(10 : ℝ)| = 1 := by
    rw [abs_of_pos (by norm_num), Real.logb_self_eq_one (by norm_num)]
  have he1 : (0 : ℝ) < 1 + 1 / 2 ^ 24 := by positivity
  have hv1 : (-100 : ℝ) < 10 * Real.logb 10
      ((1 / 8 * (1 + 1 / 2 ^ 24) * (1 / 8 * (1 + 1 / 2 ^ 24)) * (1 + 1 / 2 ^ 24)
        + 0 / 8 * (1 + 1 / 2 ^ 24) * (0 / 8 * (1 + 1 / 2 ^ 24)) * (1 + 1 / 2 ^ 24))
        * (1 + 1 / 2 ^ 24))
      * (1 + 1 / 2 ^ 24) := by nlinarith
  have hv2 : (-100 : ℝ) < 10 * Real.logb 10 ((10 * (1 + 1 / 2 ^ 24) / 8 * (1 + 1 / 2 ^ 24)
          * (10 * (1 + 1 / 2 ^ 24) / 8 * (1 + 1 / 2 ^ 24)) * (1 + 1 / 2 ^ 24)
        + 0 / 8 * (1 + 1 / 2 ^ 24) * (0 / 8 * (1 + 1 / 2 ^ 24)) * (1 + 1 / 2 ^ 24))
        * (1 + 1 / 2 ^ 24))
      * (1 + 1 / 2 ^ 24) := by nlinarith
  refine ⟨10 * Real.logb 10
      ((1 / 8 * (1 + 1 / 2 ^ 24) * (1 / 8 * (1 + 1 / 2 ^ 24)) * (1 + 1 / 2 ^ 24)
        + 0 / 8 * (1 + 1 / 2 ^ 24) * (0 / 8 * (1 + 1 / 2 ^ 24)) * (1 + 1 / 2 ^ 24))
        * (1 + 1 / 2 ^ 24)) * (1 + 1 / 2 ^ 24),
    10 * Real.logb 10 ((10 * (1 + 1 / 2 ^ 24) / 8 * (1 + 1 / 2 ^ 24)
          * (10 * (1 + 1 / 2 ^ 24) / 8 * (1 + 1 / 2 ^ 24)) * (1 + 1 / 2 ^ 24)
        + 0 / 8 * (1 + 1 / 2 ^ 24) * (0 / 8 * (1 + 1 / 2 ^ 24)) * (1 + 1 / 2 ^ 24))
        * (1 + 1 / 2 ^ 24)) * (1 + 1 / 2 ^ 24), ?_, ?_, hv1, hv2, ?_⟩
  · rw [FFTW.FFT_forward_out, hn, hB, hN]
    simp only [hlt.1, hlt.2, and_self, if_true, d1]
    rw [IEEE.dB_of_roundings (IEEE.rndRel (1 / 2 ^ 24))
      (fun x => IEEE.Val.fin (Real.logb 10 x)) 8 (by decide) 1 0 _ _ _ _ _ _ _
      rfl rfl rfl rfl rfl rfl rfl, c8, if_pos (And.intro hpos1 hv1)]
  · rw [FFTW.FFT_forward_out, hn, hB, hN]
    simp only [hlt.1, hlt.2, and_self, if_true, d3]
    rw [IEEE.dB_of_roundings (IEEE.rndRel (1 / 2 ^ 24))
      (fun x => IEEE.Val.fin (Real.logb 10 x)) 8 (by decide) (10 * (1 + 1 / 2 ^ 24)) 0
      _ _ _ _ _ _ _ rfl rfl rfl rfl rfl rfl rfl, c8, if_pos (And.intro (by norm_num) hv2)]
  · rw [h10]
    nlinarith [mul_pos (sub_pos.mpr hL) he1]

/-! ## Releasing twice (C6) -/

/-- Claim C6, at the failing input `FFT_initialize(3, 1); FFT_release(); FFT_release()`
(FFTW build, `malloc` returning the blocks 1 and 2, `fftw_create_plan` the plan 3).
Before any `FFT_initialize`, `FFT_release` does nothing.  But it never resets
`fftw_in`, `fftw_out` or `plan`, so the second `FFT_release` frees both blocks and destroys
the plan a second time; the GPU build likewise releases `gpu_fft` and closes the mailbox
again, `gpu_fft` staying non-`NULL`. -/
theorem FFT_release_twice :
    FFTW.FFT_release (FFTW.State.start (F := Int) ⟨0, 0⟩)
      = FFTW.State.start (F := Int) ⟨0, 0⟩ ∧
    (FFTW.FFT_release
        ( FFTW.FFT_initialize 3 1 1 2 3 (FFTW.State.start (F := Int) ⟨0, 0⟩))).calls
      = [Call.malloc 8, Call.malloc 8, Call.fftw_create_plan 8,
         Call.free 1, Call.free 2, Call.fftw_destroy_plan 3] ∧
    (FFTW.FFT_release (FFTW.FFT_release
        ( FFTW.FFT_initialize 3 1 1 2 3 (FFTW.State.start (F := Int) ⟨0, 0⟩)))).calls
      = [Call.malloc 8, Call.malloc 8, Call.fftw_create_plan 8,
         Call.free 1, Call.free 2, Call.fftw_destroy_plan 3,
         Call.free 1, Call.free 2, Call.fftw_destroy_plan 3] ∧
    (∀ s : RPI_GPU.State Int, s.gpu_fft ≠ 0 →
      (RPI_GPU.FFT_release (RPI_GPU.FFT_release s)).calls = s.calls ++
        [Call.gpu_fft_release s.gpu_fft, Call.mbox_close s._IOCTL_MB,
         Call.gpu_fft_release s.gpu_fft, Call.mbox_close s._IOCTL_MB]) := by
  refine ⟨rfl, by decide, by decide, ?_⟩
  intro s hs
  simp [RPI_GPU.FFT_release, hs]

/-! ## Rows are independent (C7) -/

namespace FFTW

/-- Claim C7.  An output row of `FFT_forward` is determined by its own input row and `_N`:
for two calls on states with the same `_N` (whatever their scratch blocks `fftw_in` and
`fftw_out` held, whatever their batch sizes, their other rows and the previous contents
of `out`), rows `i` and `i2` whose `2*_N` samples agree get the same output at every
index `j < _N`. -/
theorem FFT_forward_row_determined {F : Type} (A : FloatOps F)
    (fftw_one : List (Cplx F) → Nat → Cplx F)
    (s s2 : State F) (inp inp2 out out2 : Rows F) (i i2 j : Nat)
    (hN : s._N = s2._N) (hi : (i : Int) < s._BATCHSIZE) (hi2 : (i2 : Int) < s2._BATCHSIZE)
    (hrow : ∀ m, m < 2 * s._N.toNat → inp i m = inp2 i2 m) (hj : j < s._N.toNat) :
    (FFT_forward A fftw_one s inp out).2 i j
      = (FFT_forward A fftw_one s2 inp2 out2).2 i2 j := by
  have hb : i < s._BATCHSIZE.toNat := by omega
  have hb2 : i2 < s2._BATCHSIZE.toNat := by omega
  have hj2 : j < s2._N.toNat := by rw [← hN]; exact hj
  have hs : samples (inp i) s._N.toNat = samples (inp2 i2) s2._N.toNat := by
    rw [← hN]
    exact samples_congr (inp i) (inp2 i2) s._N.toNat hrow
  rw [FFT_forward_out, FFT_forward_out]
  simp only [hb, hb2, hj, hj2, and_self, if_true]
  rw [hs, ← hN]

end FFTW

/-- Claim C7 at a batch of 4 identical impulse rows, `log2N = 3`: rows 0 and 3 of the
output agree at index 5. -/
theorem FFT_forward_row_determined_witness :
    (FFTW.FFT_forward (IEEE.exact (Real.logb 10))
        (naiveDFT (IEEE.exact (Real.logb 10)) (twiddle Real.cos Real.sin (2 * Real.pi) 8))
        ( FFTW.FFT_initialize 3 4 1 2 3
          (FFTW.State.start { re := IEEE.Val.fin 0, im := IEEE.Val.fin 0 }))
        (fun _ => impulse) (fun _ _ => IEEE.Val.fin 0)).2 0 5
      = (FFTW.FFT_forward (IEEE.exact (Real.logb 10))
        (naiveDFT (IEEE.exact (Real.logb 10)) (twiddle Real.cos Real.sin (2 * Real.pi) 8))
        ( FFTW.FFT_initialize 3 4 1 2 3
          (FFTW.State.start { re := IEEE.Val.fin 0, im := IEEE.Val.fin 0 }))
        (fun _ => impulse) (fun _ _ => IEEE.Val.fin 0)).2 3 5 :=
  FFTW.FFT_forward_row_determined (IEEE.exact (Real.logb 10))
    (naiveDFT (IEEE.exact (Real.logb 10)) (twiddle Real.cos Real.sin (2 * Real.pi) 8))
    ( FFTW.FFT_initialize 3 4 1 2 3
      (FFTW.State.start { re := IEEE.Val.fin 0, im := IEEE.Val.fin 0 }))
    ( FFTW.FFT_initialize 3 4 1 2 3
      (FFTW.State.start { re := IEEE.Val.fin 0, im := IEEE.Val.fin 0 }))
    (fun _ => impulse) (fun _ => impulse) (fun _ _ => IEEE.Val.fin 0)
    (fun _ _ => IEEE.Val.fin 0) 0 3 5 rfl (by decide) (by decide) (fun _ _ => rfl)
    (by decide)

/-! ## The GPU build against the FFTW build (C8) -/

/-- Claim C8.  The two builds of `FFT_forward` differ only in the input scale.  For states
with the same `_N`, a row `i` of both batches and `j < _N`:
the GPU build loads sample `j` of row `i` as `(in[i][2j]/128, in[i][2j+1]/128)` (at
`gpu_fft->in + i*step`), the FFTW build transforms the samples `(in[i][2m], in[i][2m+1])`;
both write `dB` (shift, divide by `_N`, `10*log10`, clamp) of the raw output bin
`shiftSrc _N j`; and when `gpu_fft_execute` computes, row by row, what `fftw_one` computes
(rows `step ≥ _N` apart), the GPU output equals the FFTW output on the batch with every
sample divided by 128. -/
theorem gpu_forward_eq_fftw_on_scaled {F : Type} (A : FloatOps F)
    (fftw_one : List (Cplx F) → Nat → Cplx F)
    (gpu_fft_execute : (Nat → Cplx F) → (Nat → Cplx F) → Nat → Cplx F)
    (g : RPI_GPU.State F) (c : FFTW.State F) (inp out outc : Rows F) (i j : Nat)
    (hN : g._N = c._N) (hstep : g._N.toNat ≤ g.step)
    (hsame : ∀ (bufIn bufOut : Nat → Cplx F) (r k : Nat),
      r < g._BATCHSIZE.toNat → k < g._N.toNat →
      gpu_fft_execute bufIn bufOut (r * g.step + k)
        = fftw_one ((List.range g._N.toNat).map (fun m => bufIn (r * g.step + m))) k)
    (hi : (i : Int) < g._BATCHSIZE) (hic : (i : Int) < c._BATCHSIZE)
    (hj : j < g._N.toNat) :
    (RPI_GPU.FFT_forward A gpu_fft_execute g inp out).1.dev_in (i * g.step + j)
      = { re := A.div (inp i (2 * j)) (A.ofInt 128),
          im := A.div (inp i (2 * j + 1)) (A.ofInt 128) } ∧
    (RPI_GPU.FFT_forward A gpu_fft_execute g inp out).2 i j
      = dB A g._N ((RPI_GPU.FFT_forward A gpu_fft_execute g inp out).1.dev_out
          (i * g.step + shiftSrc g._N.toNat j)) ∧
    (FFTW.FFT_forward A fftw_one c inp outc).2 i j
      = dB A c._N (fftw_one (samples (inp i) c._N.toNat) (shiftSrc c._N.toNat j)) ∧
    (RPI_GPU.FFT_forward A gpu_fft_execute g inp out).2 i j
      = (FFTW.FFT_forward A fftw_one c (Rows.scaleDiv A inp 128) outc).2 i j := by
  have hb : i < g._BATCHSIZE.toNat := by omega
  have hbc : i < c._BATCHSIZE.toNat := by omega
  have hjc : j < c._N.toNat := by rw [← hN]; exact hj
  have hg : (RPI_GPU.FFT_forward A gpu_fft_execute g inp out).2 i j
      = dB A g._N ((RPI_GPU.FFT_forward A gpu_fft_execute g inp out).1.dev_out
          (i * g.step + shiftSrc g._N.toNat j)) := by
    rw [RPI_GPU.gpu_forward_out]
    simp only [hb, hj, and_self, if_true]
  have hc : ∀ inp2 : Rows F, (FFTW.FFT_forward A fftw_one c inp2 outc).2 i j
      = dB A c._N (fftw_one (samples (inp2 i) c._N.toNat) (shiftSrc c._N.toNat j)) := by
    intro inp2
    rw [FFTW.FFT_forward_out]
    simp only [hbc, hjc, and_self, if_true]
  refine ⟨RPI_GPU.gpu_forward_dev_in A gpu_fft_execute g inp out hstep i j hb hj, hg,
    hc inp, ?_⟩
  rw [hg, hc, RPI_GPU.gpu_forward_dev_out, hsame _ _ i _ hb (shiftSrc_lt hj), ← hN]
  congr 2
  unfold samples Rows.scaleDiv
  apply List.map_congr_left
  intro m hm
  exact RPI_GPU.gpu_forward_dev_in A gpu_fft_execute g inp out hstep i m hb
    (List.mem_range.mp hm)

/-- Claim C8 at length 8, one impulse row, rows 8 elements apart on the device and a
`gpu_fft_execute` that computes the reference DFT of each row: output `[0][5]` of the GPU
build is output `[0][5]` of the FFTW build on the batch divided by 128. -/
theorem gpu_forward_eq_fftw_on_scaled_witness :
    (RPI_GPU.FFT_forward (IEEE.exact (Real.logb 10))
        (RPI_GPU.executeRows (naiveDFT (IEEE.exact (Real.logb 10))
          (twiddle Real.cos Real.sin (2 * Real.pi) 8)) 8 8)
        { _LOG2_N := 3, _N := 8, _BATCHSIZE := 1, _IOCTL_MB := 0, gpu_fft := 1, step := 8,
          dev_in := fun _ => { re := IEEE.Val.fin 0, im := IEEE.Val.fin 0 },
          dev_out := fun _ => { re := IEEE.Val.fin 0, im := IEEE.Val.fin 0 },
          calls := [] }
        (fun _ => impulse) (fun _ _ => IEEE.Val.fin 0)).2 0 5
      = (FFTW.FFT_forward (IEEE.exact (Real.logb 10))
        (naiveDFT (IEEE.exact (Real.logb 10)) (twiddle Real.cos Real.sin (2 * Real.pi) 8))
        ( FFTW.FFT_initialize 3 1 1 2 3
          (FFTW.State.start { re := IEEE.Val.fin 0, im := IEEE.Val.fin 0 }))
        (Rows.scaleDiv (IEEE.exact (Real.logb 10)) (fun _ => impulse) 128)
        (fun _ _ => IEEE.Val.fin 0)).2 0 5 :=
  (gpu_forward_eq_fftw_on_scaled (IEEE.exact (Real.logb 10))
    (naiveDFT (IEEE.exact (Real.logb 10)) (twiddle Real.cos Real.sin (2 * Real.pi) 8))
    (RPI_GPU.executeRows (naiveDFT (IEEE.exact (Real.logb 10))
      (twiddle Real.cos Real.sin (2 * Real.pi) 8)) 8 8)
    { _LOG2_N := 3, _N := 8, _BATCHSIZE := 1, _IOCTL_MB := 0, gpu_fft := 1, step := 8,
      dev_in := fun _ => { re := IEEE.Val.fin 0, im := IEEE.Val.fin 0 },
      dev_out := fun _ => { re := IEEE.Val.fin 0, im := IEEE.Val.fin 0 },
      calls := [] }
    ( FFTW.FFT_initialize 3 1 1 2 3
      (FFTW.State.start { re := IEEE.Val.fin 0, im := IEEE.Val.fin 0 }))
    (fun _ => impulse) (fun _ _ => IEEE.Val.fin 0) (fun _ _ => IEEE.Val.fin 0) 0 5
    (by decide) (by decide)
    (fun bufIn bufOut r k _ hk =>
      RPI_GPU.executeRows_row _ 8 8 (by decide) bufIn bufOut r k hk)
    (by decide) (by decide) (by decide)).2.2.2

/-! ## Unsupported lengths (C9) -/

/-- Claim C9, as amended.  Neither build checks `log2_N` against a range itself.
GPU build: when `gpu_fft_prepare` answers `-2`, `FFT_initialize` has stored `log2_N`
unchanged, opened the mailbox and passed `log2_N` unchanged to `gpu_fft_prepare`; it
prints the message for an unsupported length and ends the process with `exit(1)`, the
status of the two other failures as well; the file itself has called no `malloc`.
FFTW build: for every `log2_N` and `batchsize` the call returns, after two `malloc`
calls and `fftw_create_plan` for `_N = 1<<log2_N`, with `log2_N` stored unchanged. -/
theorem FFT_initialize_unsupported {F : Type} (log2_N batchsize : Int) :
    (∀ (mb : Int) (fft step : Nat) (s : RPI_GPU.State F),
      ∃ s2 : RPI_GPU.State F,
        RPI_GPU.FFT_initialize log2_N batchsize mb (-2) fft step s = Outcome.exited 1 s2 ∧
        s2._LOG2_N = log2_N ∧
        s2.calls = s.calls ++ [Call.mbox_open, Call.gpu_fft_prepare mb log2_N batchsize,
          Call.fprintf_stderr "log2_N=%d not supported. Try between 8 and 17.\n" [log2_N],
          Call.exit 1] ∧
        (∃ s3, RPI_GPU.FFT_initialize log2_N batchsize mb (-1) fft step s
          = Outcome.exited 1 s3 ∧
          s3.calls = s.calls ++ [Call.mbox_open, Call.gpu_fft_prepare mb log2_N batchsize,
            Call.fprintf_stderr
              "Unable to enable V3D. Please check your firmware is up to date.\n" [],
            Call.exit 1]) ∧
        (∃ s3, RPI_GPU.FFT_initialize log2_N batchsize mb (-3) fft step s
          = Outcome.exited 1 s3 ∧
          s3.calls = s.calls ++ [Call.mbox_open, Call.gpu_fft_prepare mb log2_N batchsize,
            Call.fprintf_stderr
              "Out of memory. Try a smaller batch or increase GPU memory.\n" [],
            Call.exit 1])) ∧
    (∀ (p_in p_out p_plan : Nat) (s : FFTW.State F),
      ( FFTW.FFT_initialize log2_N batchsize p_in p_out p_plan s)._LOG2_N = log2_N ∧
      ( FFTW.FFT_initialize log2_N batchsize p_in p_out p_plan s).calls = s.calls ++
        [Call.malloc (shl32 1 log2_N), Call.malloc (shl32 1 log2_N),
         Call.fftw_create_plan (shl32 1 log2_N)]) := by
  refine ⟨?_, ?_⟩
  · intro mb fft step s
    refine ⟨_, rfl, rfl, ?_, ⟨_, rfl, ?_⟩, ⟨_, rfl, ?_⟩⟩ <;> simp [List.append_assoc]
  · intro p_in p_out p_plan s
    exact ⟨rfl, rfl⟩

/-- Claim C9 as stated fails in the FFTW build: `log2_N = 0`, below every supported
minimum the specification names, and `log2_N = 31`, where `_N` is negative, are both
accepted; the call returns and both buffers have been requested from `malloc`. -/
theorem FFT_initialize_unsupported_fftw :
    ( FFTW.FFT_initialize 0 1 1 2 3 (FFTW.State.start (F := Int) ⟨0, 0⟩)).calls
      = [Call.malloc 1, Call.malloc 1, Call.fftw_create_plan 1] ∧
    ( FFTW.FFT_initialize 0 1 1 2 3 (FFTW.State.start (F := Int) ⟨0, 0⟩))._N = 1 ∧
    ( FFTW.FFT_initialize 31 1 1 2 3 (FFTW.State.start (F := Int) ⟨0, 0⟩)).calls
      = [Call.malloc (-2147483648), Call.malloc (-2147483648),
         Call.fftw_create_plan (-2147483648)] := by
  refine ⟨by decide, by decide, by decide⟩

/-! ## The transform length (C10) -/

namespace FFTW

/-- Claim C10, as amended.  For `1 ≤ log2_N ≤ 30` and a positive `batchsize`,
`FFT_initialize` sets `_N = 2^log2_N`, a positive `int`, and stores `log2_N` and
`batchsize` unchanged; `FFT_forward` on that state then writes exactly the cells
`out[i][j]` with `i < batchsize` and `j < 2^log2_N`, and leaves every other cell. -/
theorem FFT_initialize_length {F : Type} (log2_N batchsize : Int) (p_in p_out p_plan : Nat)
    (s0 : State F) (h1 : 1 ≤ log2_N) (h30 : log2_N ≤ 30) (hb : 0 < batchsize) :
    ( FFT_initialize log2_N batchsize p_in p_out p_plan s0)._N = 2 ^ log2_N.toNat ∧
    0 < ( FFT_initialize log2_N batchsize p_in p_out p_plan s0)._N ∧
    ( FFT_initialize log2_N batchsize p_in p_out p_plan s0)._LOG2_N = log2_N ∧
    ( FFT_initialize log2_N batchsize p_in p_out p_plan s0)._BATCHSIZE = batchsize ∧
    ∀ (A : FloatOps F) (fftw_one : List (Cplx F) → Nat → Cplx F) (inp out : Rows F)
      (i j : Nat),
      (FFT_forward A fftw_one ( FFT_initialize log2_N batchsize p_in p_out p_plan s0)
          inp out).2 i j =
        if (i : Int) < batchsize ∧ j < 2 ^ log2_N.toNat then
          dB A (2 ^ log2_N.toNat)
            (fftw_one (samples (inp i) (2 ^ log2_N.toNat)) (shiftSrc (2 ^ log2_N.toNat) j))
        else out i j := by
  have hN : ( FFT_initialize log2_N batchsize p_in p_out p_plan s0)._N = 2 ^ log2_N.toNat :=
    shl32_one (by omega) h30
  refine ⟨hN, by rw [hN]; positivity, rfl, rfl, ?_⟩
  intro A fftw_one inp out i j
  have hn : ( FFT_initialize log2_N batchsize p_in p_out p_plan s0)._N.toNat
      = 2 ^ log2_N.toNat := by
    rw [hN]; exact_mod_cast Int.toNat_natCast (2 ^ log2_N.toNat)
  have hB : ( FFT_initialize log2_N batchsize p_in p_out p_plan s0)._BATCHSIZE = batchsize :=
    rfl
  rw [FFT_forward_out, hn, hN, hB]
  have : (i < batchsize.toNat) ↔ ((i : Int) < batchsize) := by omega
  simp only [this]

/-- Claim C10 as stated fails at `log2_N = 31`: `1<<31` is not a value of a 32-bit `int`;
after the wrap `_N` is `-2147483648`, which is neither `2^31` nor positive, and
`FFT_forward` then writes no cell at all. -/
theorem FFT_initialize_length_31 :
    ( FFT_initialize 31 1 1 2 3 (State.start (F := Int) ⟨0, 0⟩))._N = -2147483648 ∧
    ( FFT_initialize 31 1 1 2 3 (State.start (F := Int) ⟨0, 0⟩))._N ≠ 2 ^ 31 ∧
    ¬ 0 < ( FFT_initialize 31 1 1 2 3 (State.start (F := Int) ⟨0, 0⟩))._N ∧
    ∀ (A : FloatOps Int) (fftw_one : List (Cplx Int) → Nat → Cplx Int) (inp out : Rows Int),
      (FFT_forward A fftw_one ( FFT_initialize 31 1 1 2 3 (State.start ⟨0, 0⟩)) inp out).2
        = out := by
  have hN : ( FFT_initialize 31 1 1 2 3 (State.start (F := Int) ⟨0, 0⟩))._N = -2147483648 := by
    decide
  refine ⟨hN, by rw [hN]; decide, by rw [hN]; decide, ?_⟩
  intro A fftw_one inp out
  rw [FFT_forward_out, hN]
  funext r c
  simp

end FFTW

/-- Claim C10 (amended) at `FFT_initialize(3, 1)`: `_N = 8`. -/
theorem FFT_initialize_length_witness :
    ( FFTW.FFT_initialize 3 1 1 2 3 (FFTW.State.start (F := Int) ⟨0, 0⟩))._N = 8 ∧
    0 < ( FFTW.FFT_initialize 3 1 1 2 3 (FFTW.State.start (F := Int) ⟨0, 0⟩))._N ∧
    ( FFTW.FFT_initialize 3 1 1 2 3 (FFTW.State.start (F := Int) ⟨0, 0⟩))._LOG2_N = 3 ∧
    ( FFTW.FFT_initialize 3 1 1 2 3 (FFTW.State.start (F := Int) ⟨0, 0⟩))._BATCHSIZE = 1 :=
  have h := FFTW.FFT_initialize_length 3 1 1 2 3 (FFTW.State.start (F := Int) ⟨0, 0⟩)
    (by decide) (by decide) (by decide)
  ⟨h.1, h.2.1, h.2.2.1, h.2.2.2.1⟩

end FFT
